import Mathlib

/-!
L-BFGS optimiser: `playground/lbfgs_cpp/_lbfgs_cpp.cpp`.

A shallow embedding of the class `LBFGS` and of its member functions.

* `double` is idealised as an arbitrary linearly ordered field `α` (so the
  theorems hold over the reals, and the definitions can be run over `ℚ`);
  rounding is not modelled.
* `sqrt` from `<math.h>` is a parameter `sqrt : α → α`; theorems that depend
  on it assume what they need of it (`0 ≤ sqrt a`, `sqrt a * sqrt a = a`).
* `std::vector<double>` is `List α`; `v[i]` is `vget v i` for a read and
  `List.set` for a write.
* The `int` members `N_`, `M_`, `k_`, `maxiter_`, `nfev_` are natural numbers:
  they are sizes and counters that start at `0` and only grow.
* The objective evaluator is the caller's: a function `pot` from a point to a
  value and a gradient. The body of `compute_func_gradient` in the sources only
  counts the call; the outputs `func` and `gradient` are those of `pot`.
-/

set_option linter.unusedSectionVars false

namespace LBFGS_ns

variable {α : Type} [LinearOrderedField α]

/-! ## Loops and vectors -/

/-- The loop `for (int i = 0; i < n; ++i) body`: `body i` transforms the loop
state, for `i = 0, 1, ..., n - 1` in this order. -/
def forLoop {σ : Type} (n : Nat) (body : Nat → σ → σ) (init : σ) : σ :=
  (List.range n).foldl (fun acc i => body i acc) init

/-- Read `v[i]` of a `std::vector<double>`. -/
def vget (v : List α) (i : Nat) : α := v.getD i 0

/-- Row `m[i]` of a `std::vector<vector<double> >`. -/
def mrow (m : List (List α)) (i : Nat) : List α := m.getD i []

/-- The write `m[i][j] = a` into a `std::vector<vector<double> >`. -/
def mset (m : List (List α)) (i j : Nat) (a : α) : List (List α) :=
  m.set i ((mrow m i).set j a)

/-- The function `vecdot(v1, v2, N)`. -/
def vecdot (v1 v2 : List α) (N : Nat) : α :=
  forLoop N (fun i dot => dot + vget v1 i * vget v2 i) 0

/-- The function `vecnorm(v, N)`. -/
def vecnorm (sqrt : α → α) (v : List α) (N : Nat) : α :=
  sqrt (vecdot v v N)

/-! ## The optimiser state -/

/-- Data members of the class `LBFGS`. -/
structure LBFGS (α : Type) where
  M : Nat
  N : Nat
  maxiter : Nat
  H0 : α
  tol : α
  maxstep : α
  max_f_rise : α
  k : Nat
  nfev : Nat
  x : List α
  g : List α
  f : α
  rms : α
  step : List α
  s : List (List α)
  y : List (List α)
  rho : List α
  alpha : List α

/-- The buffers have the sizes the data model gives them: `x`, `g`, `step`
have `N` entries, `s` and `y` have `M` rows of `N` entries, `rho` and `alpha`
have `M` entries. -/
def LBFGS.WellSized (st : LBFGS α) : Prop :=
  st.x.length = st.N ∧ st.g.length = st.N ∧ st.step.length = st.N ∧
  st.s.length = st.M ∧ st.y.length = st.M ∧
  (∀ r ∈ st.s, r.length = st.N) ∧ (∀ r ∈ st.y, r.length = st.N) ∧
  st.rho.length = st.M ∧ st.alpha.length = st.M

instance (st : LBFGS α) : Decidable st.WellSized := by
  unfold LBFGS.WellSized
  infer_instance

/-! ## `LBFGS::update_memory` -/

/-- The member function `update_memory(xold, gold, xnew, gnew)`. -/
def update_memory (st : LBFGS α) (xold gold xnew gnew : List α) : LBFGS α :=
  let klocal := st.k % st.M
  let st1 : LBFGS α := forLoop st.N (fun j2 (t : LBFGS α) =>
    let t1 := { t with s := mset t.s klocal j2 (vget gnew j2 - vget gold j2) }
    { t1 with y := mset t1.y klocal j2 (vget xnew j2 - vget xold j2) }) st
  let ys0 : α := vecdot (mrow st1.y klocal) (mrow st1.s klocal) st1.N
  let ys : α := if ys0 = 0 then 1 else ys0
  let st2 : LBFGS α := { st1 with rho := st1.rho.set klocal (1 / ys) }
  let yy0 : α := vecdot (mrow st2.y klocal) (mrow st2.y klocal) st2.N
  let yy : α := if yy0 = 0 then 1 else yy0
  let st3 : LBFGS α := { st2 with H0 := ys / yy }
  { st3 with k := st3.k + 1 }

/-! ## `LBFGS::compute_lbfgs_step` -/

/-- Values taken by `j`, in order, in `for (int j = jmax - 1; j >= jmin; --j)`.
The second argument is `j + 1` for the next candidate `j`, so it starts at
`jmax`; at `0` the candidate is `-1`, below every `jmin ≥ 0`. -/
def backward_js (jmin : Nat) : Nat → List Nat
  | 0 => []
  | j + 1 => if jmin ≤ j then j :: backward_js jmin j else []

/-- Values taken by `j`, in order, in `for (int j = lo; j < hi; ++j)`. -/
def forward_js (lo hi : Nat) : List Nat := List.range' lo (hi - lo)

/-- The local `jmin = std::max(0, k_ - M_)` of `compute_lbfgs_step`, in `int`
arithmetic. -/
def step_jmin (k M : Nat) : Nat := (max (0 : Int) ((k : Int) - (M : Int))).toNat

/-- The local `jmax = std::max(M_, k_)` of `compute_lbfgs_step`. -/
def step_jmax (k M : Nat) : Nat := max M k

/-- Iteration indices `j` visited by the loop "backwards through the memory" of
`compute_lbfgs_step`, `for (int j = jmax - 1; j >= jmin; --j)`, in the order of
the visits. -/
def backward_visits (k M : Nat) : List Nat :=
  backward_js (step_jmin k M) (step_jmax k M)

/-- Iteration indices `j` visited by the loop "forwards through the memory" of
`compute_lbfgs_step`, `for (int j = jmin; j < jmin; ++j)`. -/
def forward_visits (k M : Nat) : List Nat :=
  forward_js (step_jmin k M) (step_jmin k M)

/-- Body of the loop "backwards through the memory" for one `j`. -/
def backward_body (j : Nat) (t : LBFGS α) : LBFGS α :=
  let i := j % t.M
  let t1 : LBFGS α :=
    { t with alpha := t.alpha.set i (vget t.rho i * vecdot (mrow t.s i) t.step t.N) }
  forLoop t1.N (fun j2 (u : LBFGS α) =>
    { u with step := u.step.set j2 (vget u.step j2 - vget u.alpha i * vget (mrow u.y i) j2) }) t1

/-- Body of the loop "forwards through the memory" for one `j`. -/
def forward_body (j : Nat) (t : LBFGS α) : LBFGS α :=
  let i := j % t.M
  let beta : α := vget t.rho i * vecdot (mrow t.y i) t.step t.N
  forLoop t.N (fun j2 (u : LBFGS α) =>
    { u with step :=
        u.step.set j2 (vget u.step j2 - vget (mrow u.s i) j2 * (vget u.alpha i - beta)) }) t

/-- The member function `compute_lbfgs_step()`. -/
def compute_lbfgs_step (sqrt : α → α) (st : LBFGS α) : LBFGS α :=
  if st.k = 0 then
    let gnorm0 : α := vecnorm sqrt st.g st.N
    let gnorm : α := if gnorm0 > 1 then 1 / gnorm0 else gnorm0
    forLoop st.N (fun i (t : LBFGS α) =>
      { t with step := t.step.set i (- gnorm * t.H0 * vget t.g i) }) st
  else
    let st1 : LBFGS α := { st with step := st.g }
    let st2 : LBFGS α :=
      (backward_visits st1.k st1.M).foldl (fun t j => backward_body j t) st1
    let st3 : LBFGS α := forLoop st2.N (fun j2 (u : LBFGS α) =>
      { u with step := u.step.set j2 (vget u.step j2 * u.H0) }) st2
    let st4 : LBFGS α :=
      (forward_visits st1.k st1.M).foldl (fun t j => forward_body j t) st3
    forLoop st4.N (fun j2 (u : LBFGS α) =>
      { u with step := u.step.set j2 (vget u.step j2 * (-1)) }) st4

/-- History slots `i = j % M_` whose `s_[i]`, `y_[i]`, `rho_[i]` the two passes of
`compute_lbfgs_step` read in the branch `k_ > 0`, in the order of the reads. -/
def slots_read (k M : Nat) : List Nat :=
  (backward_visits k M).map (fun j => j % M) ++ (forward_visits k M).map (fun j => j % M)

/-! ## `LBFGS::backtracking_linesearch` -/

/-- The member function `compute_func_gradient(x, func, gradient)`: it counts
the call in `nfev_`. Its body in the sources stops there; the outputs `func` and
`gradient` are taken from the caller's evaluator `pot` at `x`. -/
def compute_func_gradient (pot : List α → α × List α) (st : LBFGS α) (x : List α) :
    LBFGS α × α × List α :=
  ({ st with nfev := st.nfev + 1 }, (pot x).1, (pot x).2)

/-- Local variables of `backtracking_linesearch`. -/
structure LSVars (α : Type) where
  xnew : List α
  gnew : List α
  fnew : α
  f : α
  nred : Nat

/-- The safeguard at the top of `backtracking_linesearch`
("if the step is pointing uphill, invert it"). -/
def direction_safeguard (st : LBFGS α) : LBFGS α :=
  if vecdot st.step st.g st.N < 0 then
    forLoop st.N (fun j2 (t : LBFGS α) => { t with step := t.step.set j2 (-1) }) st
  else st

/-- The loop `for (nred = 0; nred < nred_max; ++nred)` of
`backtracking_linesearch`; the first argument is `nred_max - nred`. -/
def linesearch_loop (pot : List α → α × List α) :
    Nat → LBFGS α × LSVars α → LBFGS α × LSVars α
  | 0, p => p
  | r + 1, (st, v) =>
    let xnew : List α := forLoop st.N (fun j2 (xn : List α) =>
      xn.set j2 (vget st.x j2 + v.f * vget st.step j2)) v.xnew
    let e := compute_func_gradient pot st xnew
    let df : α := e.2.1 - v.f
    if df < e.1.max_f_rise then
      (e.1, { v with xnew := xnew, fnew := e.2.1, gnew := e.2.2 })
    else
      linesearch_loop pot r
        (e.1, { xnew := xnew, gnew := e.2.2, fnew := e.2.1, f := v.f / 10, nred := v.nred + 1 })

/-- The state and the locals of `backtracking_linesearch` when its loop is
left. `fnew` is declared without a value; the first pass of the loop gives
it one. -/
def linesearch_vars (sqrt : α → α) (pot : List α → α × List α) (st : LBFGS α) :
    LBFGS α × LSVars α :=
  let st1 : LBFGS α := direction_safeguard st
  let f : α := 1
  let stepsize : α := vecnorm sqrt st1.step st1.N
  let f : α := if f * stepsize > st1.maxstep then st1.maxstep / stepsize else f
  let nred_max : Nat := 10
  linesearch_loop pot nred_max
    (st1, { xnew := List.replicate st1.N 0, gnew := List.replicate st1.N 0,
            fnew := 0, f := f, nred := 0 })

/-- The member function `backtracking_linesearch()`. -/
def backtracking_linesearch (sqrt : α → α) (pot : List α → α × List α) (st : LBFGS α) :
    LBFGS α :=
  let p := linesearch_vars sqrt pot st
  { p.1 with x := p.2.xnew, g := p.2.gnew, f := p.2.fnew,
             rms := vecnorm sqrt p.2.gnew p.1.N / sqrt (p.1.N : α) }

/-! ## `LBFGS::stop_criterion_satisfied`, `LBFGS::one_iteration`, `LBFGS::run` -/

/-- The member function `stop_criterion_satisfied()`: `rms_ <= tol_`. -/
def stop_criterion_satisfied (st : LBFGS α) : Bool := decide (st.rms ≤ st.tol)

/-- The member function `one_iteration()`. -/
def one_iteration (sqrt : α → α) (pot : List α → α × List α) (st : LBFGS α) : LBFGS α :=
  let x_old : List α := st.x
  let g_old : List α := st.g
  let st1 : LBFGS α := compute_lbfgs_step sqrt st
  let st2 : LBFGS α := backtracking_linesearch sqrt pot st1
  update_memory st2 x_old g_old st2.x st2.g

/-- The loop `for (iter = 0; iter < maxiter_; ++iter)` of `run`; the first
argument is `maxiter_ - iter`. -/
def run_loop (sqrt : α → α) (pot : List α → α × List α) : Nat → LBFGS α → LBFGS α
  | 0, st => st
  | r + 1, st =>
    if stop_criterion_satisfied st then st
    else run_loop sqrt pot r (one_iteration sqrt pot st)

/-- The member function `run()`. -/
def run (sqrt : α → α) (pot : List α → α × List α) (st : LBFGS α) : LBFGS α :=
  run_loop sqrt pot st.maxiter st

/-! ## The constructor `LBFGS::LBFGS` -/

/-- The members when the body of the constructor starts: the vectors are empty;
the numbers hold no value yet (written `0` here), and the body assigns each of
them before it is read. -/
def LBFGS.unset : LBFGS α :=
  { M := 0, N := 0, maxiter := 0, H0 := 0, tol := 0, maxstep := 0, max_f_rise := 0,
    k := 0, nfev := 0, x := [], g := [], f := 0, rms := 0, step := [], s := [], y := [],
    rho := [], alpha := [] }

/-- The write `v[i] = a` into a `std::vector<double>` as it is executed: it has
no outcome (undefined behaviour, in practice a crash) unless `v` has an entry
`i`. -/
def checked_write (v : List α) (i : Nat) (a : α) : Option (List α) :=
  if i < v.length then some (v.set i a) else none

/-- The constructor `LBFGS::LBFGS(x0, N, M)` of a new object, whose members start
as `LBFGS.unset`. The statements are in the order of the source: constants,
copy of `x0` into `x_` entry by entry, evaluation (the evaluator fills the `N`
entries of the vector `g_` it is handed), `rms_`, and only then the allocations
of `x_`, `g_`, `y_`, `s_`, `rho_`, `alpha_`. The result is `none` when a write goes
to an entry that the vector does not have. -/
def LBFGS.construct (sqrt : α → α) (pot : List α → α × List α)
    (x0 : List α) (N M : Nat) : Option (LBFGS α) := do
  let t1 : LBFGS α :=
    { (LBFGS.unset : LBFGS α) with
        M := M, N := N, maxiter := 1000, H0 := 1/10, tol := 1/10000,
        maxstep := 1/5, max_f_rise := 1/10000, k := 0, nfev := 0 }
  let x ← (List.range t1.N).foldlM
    (fun (x : List α) j2 => checked_write x j2 (vget x0 j2)) t1.x
  let t2 : LBFGS α := { t1 with x := x }
  let e := compute_func_gradient pot t2 t2.x
  let g ← (List.range t2.N).foldlM
    (fun (g : List α) i => checked_write g i (vget e.2.2 i)) e.1.g
  let t3 : LBFGS α := { e.1 with f := e.2.1, g := g }
  let t4 : LBFGS α := { t3 with rms := vecnorm sqrt t3.g t3.N / sqrt (t3.N : α) }
  let t5 : LBFGS α := { t4 with x := List.replicate t4.N 0 }
  let t6 : LBFGS α := { t5 with g := List.replicate t5.N 0 }
  pure { t6 with y := List.replicate t6.M (List.replicate t6.N 0),
                 s := List.replicate t6.M (List.replicate t6.N 0),
                 rho := List.replicate t6.M 0,
                 alpha := List.replicate t6.M 0 }

/-! ## The same functions with every division, remainder and history index checked -/

/-- The quotient `a / b` as it is executed: no result when the divisor is zero. -/
def checked_div (a b : α) : Option α := if b = 0 then none else some (a / b)

/-- The remainder `a % m` as it is executed: no result when the divisor is zero. -/
def checked_mod (a m : Nat) : Option Nat := if m = 0 then none else some (a % m)

/-- The use of `i` as an index into the history (`s_`, `y_`, `rho_`, `alpha_`): no
result unless `i` lies in `[0, M)`. -/
def checked_slot (i M : Nat) : Option Nat := if i < M then some i else none

/-- The function `update_memory` with `k_ % M_`, the index `klocal`, `1. / ys` and
`ys / yy` checked. -/
def update_memory_checked (st : LBFGS α) (xold gold xnew gnew : List α) :
    Option (LBFGS α) := do
  let kmod ← checked_mod st.k st.M
  let klocal ← checked_slot kmod st.M
  let st1 : LBFGS α := forLoop st.N (fun j2 (t : LBFGS α) =>
    let t1 := { t with s := mset t.s klocal j2 (vget gnew j2 - vget gold j2) }
    { t1 with y := mset t1.y klocal j2 (vget xnew j2 - vget xold j2) }) st
  let ys0 : α := vecdot (mrow st1.y klocal) (mrow st1.s klocal) st1.N
  let ys : α := if ys0 = 0 then 1 else ys0
  let r ← checked_div 1 ys
  let st2 : LBFGS α := { st1 with rho := st1.rho.set klocal r }
  let yy0 : α := vecdot (mrow st2.y klocal) (mrow st2.y klocal) st2.N
  let yy : α := if yy0 = 0 then 1 else yy0
  let h ← checked_div ys yy
  let st3 : LBFGS α := { st2 with H0 := h }
  pure { st3 with k := st3.k + 1 }

/-- Body of the loop "backwards through the memory" once `i = j % M_` is known. -/
def backward_body_at (i : Nat) (t : LBFGS α) : LBFGS α :=
  let t1 : LBFGS α :=
    { t with alpha := t.alpha.set i (vget t.rho i * vecdot (mrow t.s i) t.step t.N) }
  forLoop t1.N (fun j2 (u : LBFGS α) =>
    { u with step := u.step.set j2 (vget u.step j2 - vget u.alpha i * vget (mrow u.y i) j2) }) t1

/-- Body of the loop "forwards through the memory" once `i = j % M_` is known. -/
def forward_body_at (i : Nat) (t : LBFGS α) : LBFGS α :=
  let beta : α := vget t.rho i * vecdot (mrow t.y i) t.step t.N
  forLoop t.N (fun j2 (u : LBFGS α) =>
    { u with step :=
        u.step.set j2 (vget u.step j2 - vget (mrow u.s i) j2 * (vget u.alpha i - beta)) }) t

/-- The function `backward_body` with `j % M_` and the index `i` checked. -/
def backward_body_checked (j : Nat) (t : LBFGS α) : Option (LBFGS α) := do
  let jmod ← checked_mod j t.M
  let i ← checked_slot jmod t.M
  pure (backward_body_at i t)

/-- The function `forward_body` with `j % M_` and the index `i` checked. -/
def forward_body_checked (j : Nat) (t : LBFGS α) : Option (LBFGS α) := do
  let jmod ← checked_mod j t.M
  let i ← checked_slot jmod t.M
  pure (forward_body_at i t)

/-- The function `compute_lbfgs_step` with `1. / gnorm`, every `j % M_` and every
history index checked. -/
def compute_lbfgs_step_checked (sqrt : α → α) (st : LBFGS α) : Option (LBFGS α) :=
  if st.k = 0 then do
    let gnorm0 : α := vecnorm sqrt st.g st.N
    let gnorm ← if gnorm0 > 1 then checked_div 1 gnorm0 else pure gnorm0
    pure (forLoop st.N (fun i (t : LBFGS α) =>
      { t with step := t.step.set i (- gnorm * t.H0 * vget t.g i) }) st)
  else do
    let st1 : LBFGS α := { st with step := st.g }
    let st2 ← (backward_visits st1.k st1.M).foldlM (fun t j => backward_body_checked j t) st1
    let st3 : LBFGS α := forLoop st2.N (fun j2 (u : LBFGS α) =>
      { u with step := u.step.set j2 (vget u.step j2 * u.H0) }) st2
    let st4 ← (forward_visits st1.k st1.M).foldlM (fun t j => forward_body_checked j t) st3
    pure (forLoop st4.N (fun j2 (u : LBFGS α) =>
      { u with step := u.step.set j2 (vget u.step j2 * (-1)) }) st4)

/-- The function `linesearch_loop` with `f /= 10.` checked. -/
def linesearch_loop_checked (pot : List α → α × List α) :
    Nat → LBFGS α × LSVars α → Option (LBFGS α × LSVars α)
  | 0, p => some p
  | r + 1, (st, v) =>
    let xnew : List α := forLoop st.N (fun j2 (xn : List α) =>
      xn.set j2 (vget st.x j2 + v.f * vget st.step j2)) v.xnew
    let e := compute_func_gradient pot st xnew
    let df : α := e.2.1 - v.f
    if df < e.1.max_f_rise then
      some (e.1, { v with xnew := xnew, fnew := e.2.1, gnew := e.2.2 })
    else
      (checked_div v.f 10).bind fun f10 =>
        linesearch_loop_checked pot r
          (e.1, { xnew := xnew, gnew := e.2.2, fnew := e.2.1, f := f10, nred := v.nred + 1 })

/-- The function `backtracking_linesearch` with `maxstep_ / stepsize`, `f /= 10.`
and `vecnorm(gnew, N_) / sqrt(N_)` checked. -/
def backtracking_linesearch_checked (sqrt : α → α) (pot : List α → α × List α)
    (st : LBFGS α) : Option (LBFGS α) := do
  let st1 : LBFGS α := direction_safeguard st
  let f : α := 1
  let stepsize : α := vecnorm sqrt st1.step st1.N
  let f ← if f * stepsize > st1.maxstep then checked_div st1.maxstep stepsize else pure f
  let nred_max : Nat := 10
  let p ← linesearch_loop_checked pot nred_max
    (st1, { xnew := List.replicate st1.N 0, gnew := List.replicate st1.N 0,
            fnew := 0, f := f, nred := 0 })
  let rms ← checked_div (vecnorm sqrt p.2.gnew p.1.N) (sqrt (p.1.N : α))
  pure { p.1 with x := p.2.xnew, g := p.2.gnew, f := p.2.fnew, rms := rms }

/-! ## Reference definitions for the statements -/

/-- The difference `a - b` over the first `N` coordinates. -/
def vsub (a b : List α) (N : Nat) : List α :=
  (List.range N).map (fun j => vget a j - vget b j)

/-- The vector `q + c * r` over the first `N` coordinates. -/
def vaxpy (q : List α) (c : α) (r : List α) (N : Nat) : List α :=
  (List.range N).map (fun j => vget q j + c * vget r j)

/-- The vector `c * q` over the first `N` coordinates. -/
def vscale (c : α) (q : List α) (N : Nat) : List α :=
  (List.range N).map (fun j => c * vget q j)

/-- The valid history range `[max(0, k - M), k)`, oldest first. -/
def valid_range (k M : Nat) : List Nat := List.range' (k - M) (k - (k - M))

/-- The two-loop recursion as the specification words it, over the stored
`s`, `y`, `rho`, `H0` and the gradient `g`: `q = g`; backward pass for `j` from
`k - 1` down to `max(0, k - M)` with `i = j mod M`, `alpha[i] = rho[i] * (s[i] . q)`,
`q -= alpha[i] * y[i]`; `q *= H0`; forward pass for `j` from `max(0, k - M)` up to
`k - 1` with `beta = rho[i] * (y[i] . q)`, `q += s[i] * (beta - alpha[i])`;
`step = -q`. -/
def two_loop_recursion (st : LBFGS α) : List α :=
  let q0 : List α := vscale 1 st.g st.N
  let bw : List α × List α := (valid_range st.k st.M).reverse.foldl
    (fun (p : List α × List α) j =>
      let i := j % st.M
      let a : α := vget st.rho i * vecdot (mrow st.s i) p.2 st.N
      (p.1.set i a, vaxpy p.2 (-a) (mrow st.y i) st.N)) (st.alpha, q0)
  let q1 : List α := vscale st.H0 bw.2 st.N
  let q2 : List α := (valid_range st.k st.M).foldl
    (fun (q : List α) j =>
      let i := j % st.M
      let beta : α := vget st.rho i * vecdot (mrow st.y i) q st.N
      vaxpy q (beta - vget bw.1 i) (mrow st.s i) st.N) q1
  vscale (-1) q2 st.N

/-- The state and the locals of `backtracking_linesearch` when its loop is
entered: the safeguard has run and `f` is the initial scale factor. -/
def linesearch_init (sqrt : α → α) (st : LBFGS α) : LBFGS α × LSVars α :=
  let st1 : LBFGS α := direction_safeguard st
  let f : α := 1
  let stepsize : α := vecnorm sqrt st1.step st1.N
  let f : α := if f * stepsize > st1.maxstep then st1.maxstep / stepsize else f
  (st1, { xnew := List.replicate st1.N 0, gnew := List.replicate st1.N 0,
          fnew := 0, f := f, nred := 0 })

/-- The initial scale factor `f` of `backtracking_linesearch`: `1`, or
`maxstep_ / stepsize` when the step left by the safeguard is longer than
`maxstep_`. -/
def linesearch_f0 (sqrt : α → α) (st : LBFGS α) : α := (linesearch_init sqrt st).2.f

/-- The points at which the loop of `backtracking_linesearch` calls
`compute_func_gradient`, in the order of the calls; the arguments are those of
`linesearch_loop`. -/
def linesearch_loop_trials (pot : List α → α × List α) :
    Nat → LBFGS α × LSVars α → List (List α)
  | 0, _ => []
  | r + 1, (st, v) =>
    let xnew : List α := forLoop st.N (fun j2 (xn : List α) =>
      xn.set j2 (vget st.x j2 + v.f * vget st.step j2)) v.xnew
    let e := compute_func_gradient pot st xnew
    let df : α := e.2.1 - v.f
    if df < e.1.max_f_rise then [xnew]
    else
      xnew :: linesearch_loop_trials pot r
        (e.1, { xnew := xnew, gnew := e.2.2, fnew := e.2.1, f := v.f / 10, nred := v.nred + 1 })

/-- The points at which one call of `backtracking_linesearch` calls the
evaluator, in the order of the calls. -/
def linesearch_trials (sqrt : α → α) (pot : List α → α × List α) (st : LBFGS α) :
    List (List α) :=
  linesearch_loop_trials pot 10 (linesearch_init sqrt st)

/-- Square root on `ℚ` for running the definitions: the integer square roots of
numerator and denominator, exact on the square of a rational. -/
def sqrtQ (q : ℚ) : ℚ :=
  (Nat.findGreatest (fun r => r * r ≤ q.num.toNat) q.num.toNat : ℚ) /
    (Nat.findGreatest (fun r => r * r ≤ q.den) q.den : ℚ)

/-- A state with `N = 1`, `M = 1`, `k = 0`, zeroed buffers and the constants of
the constructor. -/
def st_fresh : LBFGS ℚ :=
  { M := 1, N := 1, maxiter := 1000, H0 := 1/10, tol := 1/10000, maxstep := 1/5,
    max_f_rise := 1/10000, k := 0, nfev := 1, x := [0], g := [0], f := 0, rms := 0,
    step := [0], s := [[0]], y := [[0]], rho := [0], alpha := [0] }

/-- A state with `N = 1`, `M = 2`, `k = 0`, zeroed buffers and the constants of
the constructor. -/
def st_fresh2 : LBFGS ℚ :=
  { M := 2, N := 1, maxiter := 1000, H0 := 1/10, tol := 1/10000, maxstep := 1/5,
    max_f_rise := 1/10000, k := 0, nfev := 1, x := [0], g := [0], f := 0, rms := 0,
    step := [0], s := [[0], [0]], y := [[0], [0]], rho := [0, 0], alpha := [0, 0] }

/-- The state `st_fresh` after one step from `x = [0]`, `g = [0]` to `x = [1]`,
`g = [1]` has been recorded: `k = 1`, `s = [[1]]`, `y = [[1]]`, `rho = [1]`,
`H0 = 1`. -/
def st_one_update : LBFGS ℚ :=
  update_memory { st_fresh with x := [1], g := [1] } [0] [0] [1] [1]

/-- The state `st_fresh2` (memory `M = 2`) after one step from `x = [0]`,
`g = [0]` to `x = [1]`, `g = [1]` has been recorded: `k = 1`, slot `0` written,
slot `1` never written. -/
def st2_one_update : LBFGS ℚ :=
  update_memory { st_fresh2 with x := [1], g := [1] } [0] [0] [1] [1]

/-- A state with `M = 2` and `k = 5`. -/
def st2_k5 : LBFGS ℚ := { st_fresh2 with k := 5 }

/-- The objective `f(x) = -x` of one variable: value and gradient. -/
def pot_neg (x : List ℚ) : ℚ × List ℚ := (- vget x 0, [-1])

/-- The state for the objective `pot_neg` at the initial point `x = [0]`
(`f = 0`, `g = [-1]`, `rms = 1`), with `N = M = 1`, `k = 0` and the constants of
the constructor. -/
def st_neg : LBFGS ℚ := { st_fresh with g := [-1], rms := 1 }

/-- A state over any field with `N = M = 1`, `k = 0`, the constants of the
constructor, at `x = [0]` with `f = 0`, `g = [1]` and the step `[-3]`. -/
def st_long_step : LBFGS α :=
  { M := 1, N := 1, maxiter := 1000, H0 := 1/10, tol := 1/10000, maxstep := 1/5,
    max_f_rise := 1/10000, k := 0, nfev := 1, x := [0], g := [1], f := 0, rms := 1,
    step := [-3], s := [[0]], y := [[0]], rho := [0], alpha := [0] }

/-- The objective `f(x) = x` of one variable over any field: value and gradient. -/
def pot_id (x : List α) : α × List α := (vget x 0, [1])

/-- The state of `compute_lbfgs_step` (branch `k_ > 0`) when the loop "backwards
through the memory" is left: `step_` holds the vector obtained from `g_` by the
backward pass alone. -/
def backward_pass (st : LBFGS α) : LBFGS α :=
  (backward_visits st.k st.M).foldl (fun t j => backward_body j t) { st with step := st.g }

/-- The backward pass in the words of the claims, over the stored `rho`, `s`, `y`:
for each `j` of `js` in order, `i = j mod M`, `alpha[i] = rho[i] * (s[i] . q)`,
`q -= alpha[i] * y[i]`. The pair is `(alpha, q)`. -/
def backward_recursion (st : LBFGS α) (js : List Nat) (p0 : List α × List α) :
    List α × List α :=
  js.foldl
    (fun (p : List α × List α) j =>
      let i := j % st.M
      let a : α := vget st.rho i * vecdot (mrow st.s i) p.2 st.N
      (p.1.set i a, vaxpy p.2 (-a) (mrow st.y i) st.N)) p0

/-- A state with `N = 1`, `M = 2`, `k = 5`, `H0 = 1/10`, `g = [1]` and the history
`s = [[1], [2]]`, `y = [[3], [4]]`, `rho = [1/2, 1/3]`. -/
def st2_hist : LBFGS ℚ :=
  { M := 2, N := 1, maxiter := 1000, H0 := 1/10, tol := 1/10000, maxstep := 1/5,
    max_f_rise := 1/10000, k := 5, nfev := 6, x := [0], g := [1], f := 0, rms := 1,
    step := [0], s := [[1], [2]], y := [[3], [4]], rho := [1/2, 1/3], alpha := [0, 0] }

/-- The objective `f(x) = 5 + x` of one variable: value and gradient. -/
def pot_high (x : List ℚ) : ℚ × List ℚ := (5 + vget x 0, [1])

/-- The state `st_neg` (`x = [0]`, `g = [-1]`) with the step `[1/10]`. -/
def st_neg_step : LBFGS ℚ := { st_neg with step := [1/10] }

/-! ## Theorems -/

/-! ### Loops -/

theorem forLoop_zero {σ : Type} (body : Nat → σ → σ) (init : σ) :
    forLoop 0 body init = init := rfl

theorem forLoop_succ {σ : Type} (n : Nat) (body : Nat → σ → σ) (init : σ) :
    forLoop (n + 1) body init = body n (forLoop n body init) := by
  simp [forLoop, List.range_succ, List.foldl_append]

/-- Invariant rule for `forLoop`. -/
theorem forLoop_induction {σ : Type} (P : Nat → σ → Prop) (n : Nat) (body : Nat → σ → σ)
    (init : σ) (h0 : P 0 init) (hs : ∀ i, i < n → ∀ s, P i s → P (i + 1) (body i s)) :
    P n (forLoop n body init) := by
  have key : ∀ m, m ≤ n → P m (forLoop m body init) := by
    intro m
    induction m with
    | zero => intro _; exact h0
    | succ m ih =>
      intro hm
      rw [forLoop_succ]
      exact hs m (by omega) _ (ih (by omega))
  exact key n (le_refl n)

/-! ### Vectors -/

theorem vget_set (v : List α) (i j : Nat) (a : α) :
    vget (v.set i a) j = if i = j ∧ i < v.length then a else vget v j := by
  unfold vget
  by_cases h : i = j
  · subst h
    by_cases hl : i < v.length
    · simp [hl, List.getD_eq_getElem?_getD]
    · have hl2 : v.length ≤ i := by omega
      have hl3 : (v.set i a).length ≤ i := by simpa using hl2
      simp [hl, List.getD_eq_getElem?_getD, List.getElem?_eq_none hl2,
        List.getElem?_eq_none hl3]
  · simp [h, List.getD_eq_getElem?_getD]

theorem vget_replicate (n j : Nat) (a : α) :
    vget (List.replicate n a) j = if j < n then a else 0 := by
  unfold vget
  by_cases h : j < n
  · simp [h, List.getD_eq_getElem?_getD, List.getElem?_replicate]
  · simp [h, List.getD_eq_getElem?_getD, List.getElem?_replicate]

/-- A loop that writes `v[j] = h j v[j]` for `j < n` keeps the length. -/
theorem length_forLoop_set (h : Nat → α → α) (v0 : List α) (n : Nat) :
    (forLoop n (fun j (v : List α) => v.set j (h j (vget v j))) v0).length = v0.length := by
  induction n with
  | zero => rfl
  | succ n ih => rw [forLoop_succ, List.length_set, ih]

/-- A loop that writes `v[j] = h j v[j]` for `j < n`, read at `i`. -/
theorem vget_forLoop_set (h : Nat → α → α) (v0 : List α) (n i : Nat) (hi : i < v0.length) :
    vget (forLoop n (fun j (v : List α) => v.set j (h j (vget v j))) v0) i
      = if i < n then h i (vget v0 i) else vget v0 i := by
  induction n with
  | zero => simp [forLoop_zero]
  | succ n ih =>
    rw [forLoop_succ, vget_set, length_forLoop_set]
    by_cases hn : n = i
    · subst hn
      simp [hi, ih]
    · have h1 : ¬ (n = i ∧ n < v0.length) := fun hc => hn hc.1
      rw [if_neg h1, ih]
      by_cases h2 : i < n
      · have h3 : i < n + 1 := by omega
        simp [h2, h3]
      · have h3 : ¬ i < n + 1 := by omega
        simp [h2, h3]

/-- The dot product `vecdot` is the sum of the products of the first `N` entries. -/
theorem vecdot_eq_sum (v1 v2 : List α) (N : Nat) :
    vecdot v1 v2 N = ∑ i in Finset.range N, vget v1 i * vget v2 i := by
  unfold vecdot
  induction N with
  | zero => simp [forLoop_zero]
  | succ n ih => rw [forLoop_succ, ih, Finset.sum_range_succ]

theorem vecdot_comm (v1 v2 : List α) (N : Nat) : vecdot v1 v2 N = vecdot v2 v1 N := by
  rw [vecdot_eq_sum, vecdot_eq_sum]
  exact Finset.sum_congr rfl (fun i _ => mul_comm _ _)

theorem vecdot_congr (u1 u2 v1 v2 : List α) (N : Nat)
    (h1 : ∀ i, i < N → vget u1 i = vget v1 i) (h2 : ∀ i, i < N → vget u2 i = vget v2 i) :
    vecdot u1 u2 N = vecdot v1 v2 N := by
  rw [vecdot_eq_sum, vecdot_eq_sum]
  refine Finset.sum_congr rfl (fun i hi => ?_)
  have hi2 : i < N := Finset.mem_range.mp hi
  rw [h1 i hi2, h2 i hi2]

theorem vget_vsub (a b : List α) (N j : Nat) (hj : j < N) :
    vget (vsub a b N) j = vget a j - vget b j := by
  unfold vsub vget
  simp [List.getD_eq_getElem?_getD, List.getElem?_map, List.getElem?_range, hj]

/-! ### `update_memory` -/

theorem mrow_set_self (m : List (List α)) (i : Nat) (r : List α) (h : i < m.length) :
    mrow (m.set i r) i = r := by
  unfold mrow
  simp [List.getD_eq_getElem?_getD, h]

theorem set_mrow_self (m : List (List α)) (i : Nat) : m.set i (mrow m i) = m := by
  unfold mrow
  by_cases h : i < m.length
  · have hm : m.getD i [] = m[i] := by simp [List.getD_eq_getElem?_getD, h]
    rw [hm]
    apply List.ext_getElem?
    intro k
    rw [List.getElem?_set]
    by_cases hk : i = k
    · subst hk
      simp [h]
    · simp [hk]
  · have h2 : m.length ≤ i := by omega
    rw [List.set_eq_of_length_le h2]

theorem mset_set (m : List (List α)) (i j : Nat) (r : List α) (a : α) (h : i < m.length) :
    mset (m.set i r) i j a = m.set i (r.set j a) := by
  unfold mset
  rw [mrow_set_self m i r h, List.set_set]

/-- The loop of `update_memory` after `n` passes: row `k_ % M_` of `s_` holds the
gradient differences and row `k_ % M_` of `y_` the position differences in its
first `n` entries; nothing else has changed. -/
theorem update_memory_loop (st : LBFGS α) (xold gold xnew gnew : List α)
    (hs : st.k % st.M < st.s.length) (hy : st.k % st.M < st.y.length) (n : Nat) :
    forLoop n (fun j2 (t : LBFGS α) =>
      let t1 := { t with s := mset t.s (st.k % st.M) j2 (vget gnew j2 - vget gold j2) }
      { t1 with y := mset t1.y (st.k % st.M) j2 (vget xnew j2 - vget xold j2) }) st
    = { st with
        s := st.s.set (st.k % st.M)
          (forLoop n (fun j (v : List α) => v.set j (vget gnew j - vget gold j))
            (mrow st.s (st.k % st.M))),
        y := st.y.set (st.k % st.M)
          (forLoop n (fun j (v : List α) => v.set j (vget xnew j - vget xold j))
            (mrow st.y (st.k % st.M))) } := by
  induction n with
  | zero => simp [forLoop_zero, set_mrow_self]
  | succ n ih =>
    rw [forLoop_succ, ih, forLoop_succ, forLoop_succ]
    simp only [mset_set _ _ _ _ _ hs, mset_set _ _ _ _ _ hy]

theorem wellSized_row_s (st : LBFGS α) (hw : st.WellSized) (i : Nat) (hi : i < st.M) :
    (mrow st.s i).length = st.N := by
  obtain ⟨_, _, _, hs, _, hrs, _, _, _⟩ := hw
  have h : i < st.s.length := by omega
  have hm : mrow st.s i = st.s[i] := by
    unfold mrow
    simp [List.getD_eq_getElem?_getD, h]
  rw [hm]
  exact hrs _ (List.getElem_mem _)

theorem wellSized_row_y (st : LBFGS α) (hw : st.WellSized) (i : Nat) (hi : i < st.M) :
    (mrow st.y i).length = st.N := by
  obtain ⟨_, _, _, _, hy, _, hry, _, _⟩ := hw
  have h : i < st.y.length := by omega
  have hm : mrow st.y i = st.y[i] := by
    unfold mrow
    simp [List.getD_eq_getElem?_getD, h]
  rw [hm]
  exact hry _ (List.getElem_mem _)

/-- What `update_memory` leaves in slot `k_ % M_` of `s_`: the gradient difference. -/
theorem update_memory_s (st : LBFGS α) (xold gold xnew gnew : List α)
    (hM : 1 ≤ st.M) (hw : st.WellSized) (j : Nat) (hj : j < st.N) :
    vget (mrow (update_memory st xold gold xnew gnew).s (st.k % st.M)) j
      = vget gnew j - vget gold j := by
  have hk : st.k % st.M < st.M := Nat.mod_lt _ (by omega)
  have hs : st.k % st.M < st.s.length := by rw [hw.2.2.2.1]; exact hk
  have hy : st.k % st.M < st.y.length := by rw [hw.2.2.2.2.1]; exact hk
  have hr := wellSized_row_s st hw _ hk
  simp only [update_memory, update_memory_loop st xold gold xnew gnew hs hy]
  rw [mrow_set_self _ _ _ hs]
  rw [vget_forLoop_set (fun j _ => vget gnew j - vget gold j) _ _ _ (by omega)]
  simp [hj]

/-- What `update_memory` leaves in slot `k_ % M_` of `y_`: the position difference. -/
theorem update_memory_y (st : LBFGS α) (xold gold xnew gnew : List α)
    (hM : 1 ≤ st.M) (hw : st.WellSized) (j : Nat) (hj : j < st.N) :
    vget (mrow (update_memory st xold gold xnew gnew).y (st.k % st.M)) j
      = vget xnew j - vget xold j := by
  have hk : st.k % st.M < st.M := Nat.mod_lt _ (by omega)
  have hs : st.k % st.M < st.s.length := by rw [hw.2.2.2.1]; exact hk
  have hy : st.k % st.M < st.y.length := by rw [hw.2.2.2.2.1]; exact hk
  have hr := wellSized_row_y st hw _ hk
  simp only [update_memory, update_memory_loop st xold gold xnew gnew hs hy]
  rw [mrow_set_self _ _ _ hy]
  rw [vget_forLoop_set (fun j _ => vget xnew j - vget xold j) _ _ _ (by omega)]
  simp [hj]

/-- The curvature `ys` that `update_memory` computes from the two rows it has
just written is the dot product of the gradient and position differences. -/
theorem update_memory_ys (st : LBFGS α) (xold gold xnew gnew : List α)
    (hM : 1 ≤ st.M) (hw : st.WellSized) :
    vecdot (mrow (update_memory st xold gold xnew gnew).y (st.k % st.M))
        (mrow (update_memory st xold gold xnew gnew).s (st.k % st.M)) st.N
      = vecdot (vsub gnew gold st.N) (vsub xnew xold st.N) st.N := by
  rw [vecdot_comm]
  apply vecdot_congr
  · intro i hi
    rw [update_memory_s st xold gold xnew gnew hM hw i hi, vget_vsub _ _ _ _ hi]
  · intro i hi
    rw [update_memory_y st xold gold xnew gnew hM hw i hi, vget_vsub _ _ _ _ hi]

/-! ### `compute_lbfgs_step` -/

/-- A loop over the state that writes `step_[j] = F j state` for `j < n`, when
`F` only looks at `step_[j]` among the entries of `step_`. -/
theorem forLoop_step (st : LBFGS α) (F : Nat → LBFGS α → α) (h : Nat → α → α)
    (hF : ∀ j (v : List α), F j { st with step := v } = h j (vget v j)) (n : Nat) :
    forLoop n (fun j (u : LBFGS α) => { u with step := u.step.set j (F j u) }) st
      = { st with step := forLoop n (fun j (v : List α) => v.set j (h j (vget v j))) st.step } := by
  induction n with
  | zero => rfl
  | succ n ih =>
    rw [forLoop_succ, ih, forLoop_succ]
    simp only [hF]

/-- The loop bounds of `compute_lbfgs_step`: `jmin` is `k - M` cut off at `0`. -/
theorem step_jmin_eq (k M : Nat) : step_jmin k M = k - M := by
  unfold step_jmin
  omega

/-- The `j` of `for (int j = jmax - 1; j >= jmin; --j)` are `jmax - 1, ..., jmin`. -/
theorem backward_js_eq (jmin n : Nat) :
    backward_js jmin n = (List.range' jmin (n - jmin)).reverse := by
  induction n with
  | zero => simp [backward_js]
  | succ n ih =>
    unfold backward_js
    by_cases h : jmin ≤ n
    · have h1 : n + 1 - jmin = (n - jmin) + 1 := by omega
      have h2 : jmin + (n - jmin) = n := by omega
      rw [if_pos h, ih, h1, List.range'_concat, List.reverse_append]
      simp [h2]
    · have h1 : n + 1 - jmin = 0 := by omega
      rw [if_neg h, h1]
      rfl

/-- The branch `k_ == 0` of `compute_lbfgs_step`, entry by entry: the factor in
front of `H0_ * g_[i]` is the variable `gnorm`, which holds the norm itself unless
the norm exceeds `1`. -/
theorem compute_lbfgs_step_cold (sqrt : α → α) (st : LBFGS α) (hk : st.k = 0)
    (hlen : st.N ≤ st.step.length) (i : Nat) (hi : i < st.N) :
    vget (compute_lbfgs_step sqrt st).step i
      = - (if vecnorm sqrt st.g st.N > 1 then 1 / vecnorm sqrt st.g st.N
           else vecnorm sqrt st.g st.N) * st.H0 * vget st.g i := by
  unfold compute_lbfgs_step
  rw [if_pos hk]
  simp only []
  rw [forLoop_step st _ (fun i _ =>
    - (if vecnorm sqrt st.g st.N > 1 then 1 / vecnorm sqrt st.g st.N
       else vecnorm sqrt st.g st.N) * st.H0 * vget st.g i) (fun _ _ => rfl)]
  have key := vget_forLoop_set (fun j (_ : α) =>
    - (if vecnorm sqrt st.g st.N > 1 then 1 / vecnorm sqrt st.g st.N
       else vecnorm sqrt st.g st.N) * st.H0 * vget st.g j) st.step st.N i (by omega)
  rw [if_pos hi] at key
  exact key

/-! ### `backtracking_linesearch` -/

/-- The safeguard only writes to `step_`. -/
theorem direction_safeguard_frame (st : LBFGS α) :
    (direction_safeguard st).x = st.x ∧ (direction_safeguard st).N = st.N ∧
    (direction_safeguard st).maxstep = st.maxstep := by
  unfold direction_safeguard
  by_cases h : vecdot st.step st.g st.N < 0
  · rw [if_pos h, forLoop_step st (fun _ _ => -1) (fun _ _ => -1) (fun _ _ => rfl)]
    exact ⟨rfl, rfl, rfl⟩
  · rw [if_neg h]
    exact ⟨rfl, rfl, rfl⟩

/-- The trial point built by one pass of the line-search loop. -/
theorem trial_point (x step xnew : List α) (f : α) (N j : Nat) (hlen : xnew.length = N)
    (hj : j < N) :
    vget (forLoop N (fun j2 (xn : List α) => xn.set j2 (vget x j2 + f * vget step j2)) xnew) j
      = vget x j + f * vget step j := by
  have key := vget_forLoop_set (fun j2 (_ : α) => vget x j2 + f * vget step j2) xnew N j
    (by omega)
  rw [if_pos hj] at key
  exact key

theorem trial_point_length (x step xnew : List α) (f : α) (N : Nat) :
    (forLoop N (fun j2 (xn : List α) => xn.set j2 (vget x j2 + f * vget step j2)) xnew).length
      = xnew.length :=
  length_forLoop_set (fun j2 (_ : α) => vget x j2 + f * vget step j2) xnew N

/-- C1 (code defect): with `N = M = 1`, `k = 0`, `xold = [0]`, `gold = [0]`,
`xnew = [1]`, `gnew = [2]`, `update_memory` stores the gradient difference `2`
in `s[0]` and the position difference `1` in `y[0]`: the two are exchanged with
respect to `s[i] = x_new - x_old`, `y[i] = g_new - g_old`. -/
theorem update_memory_exchanges_s_and_y :
    (update_memory st_fresh [0] [0] [1] [2]).s = [[2]] ∧
    (update_memory st_fresh [0] [0] [1] [2]).y = [[1]] ∧
    mrow (update_memory st_fresh [0] [0] [1] [2]).s (st_fresh.k % st_fresh.M)
      ≠ vsub [1] [0] st_fresh.N ∧
    mrow (update_memory st_fresh [0] [0] [1] [2]).y (st_fresh.k % st_fresh.M)
      ≠ vsub [2] [0] st_fresh.N := by
  decide!

/-- C10: after `update_memory(x_old, g_old, x_new, g_new)` on a state with
`M ≥ 1` and buffers of the declared sizes, with `i = k mod M` for the old `k`,
`rho[i] = 1 / ys` where `ys = (g_new - g_old) . (x_new - x_old)`, and
`rho[i] = 1` when that dot product is exactly zero. -/
theorem update_memory_rho (st : LBFGS α) (xold gold xnew gnew : List α)
    (hM : 1 ≤ st.M) (hw : st.WellSized) :
    vget (update_memory st xold gold xnew gnew).rho (st.k % st.M)
      = if vecdot (vsub gnew gold st.N) (vsub xnew xold st.N) st.N = 0 then 1
        else 1 / vecdot (vsub gnew gold st.N) (vsub xnew xold st.N) st.N := by
  have hk : st.k % st.M < st.M := Nat.mod_lt _ (by omega)
  have hs : st.k % st.M < st.s.length := by rw [hw.2.2.2.1]; exact hk
  have hy : st.k % st.M < st.y.length := by rw [hw.2.2.2.2.1]; exact hk
  have hrho : st.k % st.M < st.rho.length := by rw [hw.2.2.2.2.2.2.2.1]; exact hk
  have hys := update_memory_ys st xold gold xnew gnew hM hw
  simp only [update_memory, update_memory_loop st xold gold xnew gnew hs hy] at hys ⊢
  rw [vget_set, hys]
  simp only [hrho, and_self, if_true]
  by_cases h0 : vecdot (vsub gnew gold st.N) (vsub xnew xold st.N) st.N = 0
  · simp [h0]
  · simp [h0]

/-- Instance of `update_memory_rho`: one coordinate, `x` moves by `1` and the
gradient by `2`, so `rho[0] = 1/2`. -/
theorem update_memory_rho_witness :
    (1 ≤ st_fresh.M ∧ st_fresh.WellSized) ∧
    vget (update_memory st_fresh [0] [0] [1] [2]).rho (st_fresh.k % st_fresh.M)
      = if vecdot (vsub [(2 : ℚ)] [0] st_fresh.N) (vsub [1] [0] st_fresh.N) st_fresh.N = 0
        then 1
        else 1 / vecdot (vsub [(2 : ℚ)] [0] st_fresh.N) (vsub [1] [0] st_fresh.N) st_fresh.N :=
  ⟨by decide, update_memory_rho st_fresh [0] [0] [1] [2] (by decide) (by decide)⟩

/-- C2 (code defect): in the state `st_one_update` (`N = M = 1`, `k = 1`,
`s = [[1]]`, `y = [[1]]`, `rho = [1]`, `H0 = 1`, `g = [1]`) `compute_lbfgs_step`
produces `step = [0]` while the two-loop recursion gives `[1]`: the forward
pass, which would add `s[0] * (beta - alpha[0]) = -1` to `q`, is not run. -/
theorem compute_lbfgs_step_not_two_loop :
    st_one_update.k = 1 ∧
    (compute_lbfgs_step sqrtQ st_one_update).step = [0] ∧
    two_loop_recursion st_one_update = [1] ∧
    (compute_lbfgs_step sqrtQ st_one_update).step ≠ two_loop_recursion st_one_update := by
  decide!

/-- C7 (code defect): with `M = 2` and `k = 1` (state `st2_one_update`, one memory
update done) the passes of `compute_lbfgs_step` read slots `1` and `0`, although
the valid range `[max(0, k - M), k) = [0, 1)` only holds slot `0`; slot `1 ≥ k`
has never been written by `update_memory`. -/
theorem compute_lbfgs_step_reads_unwritten_slot :
    st2_one_update.M = 2 ∧ st2_one_update.k = 1 ∧
    slots_read st2_one_update.k st2_one_update.M = [1, 0] ∧
    (valid_range st2_one_update.k st2_one_update.M).map (fun j => j % st2_one_update.M) = [0] ∧
    (∃ i, i ∈ slots_read st2_one_update.k st2_one_update.M ∧ st2_one_update.k ≤ i) := by
  refine ⟨by decide!, by decide!, by decide!, by decide!, 1, by decide!, by decide!⟩

/-- C3, as stated, fails: with `k = 0`, `H0 = 1/10` and `g = [1/2]` the norm of
`g` is `1/2 ≤ 1`, so the stated factor is `c = 1`, but the step is
`-(1/2) * (1/10) * (1/2) = -1/40`, not `-1 * (1/10) * (1/2) = -1/20`. -/
theorem cold_start_factor_counterexample :
    ({ st_fresh with g := [1/2] } : LBFGS ℚ).k = 0 ∧
    vecnorm sqrtQ ({ st_fresh with g := [1/2] } : LBFGS ℚ).g 1 ≤ 1 ∧
    vget (compute_lbfgs_step sqrtQ { st_fresh with g := [1/2] }).step 0 = -1/40 ∧
    vget (compute_lbfgs_step sqrtQ { st_fresh with g := [1/2] }).step 0
      ≠ - (if vecnorm sqrtQ ({ st_fresh with g := [1/2] } : LBFGS ℚ).g 1 ≤ 1 then 1
           else 1 / vecnorm sqrtQ ({ st_fresh with g := [1/2] } : LBFGS ℚ).g 1)
        * ({ st_fresh with g := [1/2] } : LBFGS ℚ).H0
        * vget ({ st_fresh with g := [1/2] } : LBFGS ℚ).g 0 := by
  decide!

/-- C3, amended: when `k == 0`, in a state whose `step` buffer has its `N`
entries, `compute_lbfgs_step` sets `step = -c * H0 * g` componentwise, where
`c = ||g||` if `||g|| ≤ 1` and `c = 1 / ||g||` otherwise. -/
theorem cold_start_step (sqrt : α → α) (st : LBFGS α) (hk : st.k = 0)
    (hlen : st.step.length = st.N) (i : Nat) (hi : i < st.N) :
    vget (compute_lbfgs_step sqrt st).step i
      = - (if vecnorm sqrt st.g st.N ≤ 1 then vecnorm sqrt st.g st.N
           else 1 / vecnorm sqrt st.g st.N) * st.H0 * vget st.g i := by
  rw [compute_lbfgs_step_cold sqrt st hk (by omega) i hi]
  by_cases h : vecnorm sqrt st.g st.N ≤ 1
  · rw [if_pos h, if_neg (not_lt.mpr h)]
  · rw [if_neg h, if_pos (not_le.mp h)]

/-- Instance of `cold_start_step`: `g = [1/2]`, `H0 = 1/10`, where the step is
`-(1/2) * (1/10) * (1/2)`. -/
theorem cold_start_step_witness :
    (({ st_fresh with g := [1/2] } : LBFGS ℚ).k = 0 ∧
      ({ st_fresh with g := [1/2] } : LBFGS ℚ).step.length
        = ({ st_fresh with g := [1/2] } : LBFGS ℚ).N ∧
      0 < ({ st_fresh with g := [1/2] } : LBFGS ℚ).N) ∧
    vget (compute_lbfgs_step sqrtQ { st_fresh with g := [1/2] }).step 0
      = - (if vecnorm sqrtQ ({ st_fresh with g := [1/2] } : LBFGS ℚ).g
              ({ st_fresh with g := [1/2] } : LBFGS ℚ).N ≤ 1
           then vecnorm sqrtQ ({ st_fresh with g := [1/2] } : LBFGS ℚ).g
              ({ st_fresh with g := [1/2] } : LBFGS ℚ).N
           else 1 / vecnorm sqrtQ ({ st_fresh with g := [1/2] } : LBFGS ℚ).g
              ({ st_fresh with g := [1/2] } : LBFGS ℚ).N)
        * ({ st_fresh with g := [1/2] } : LBFGS ℚ).H0
        * vget ({ st_fresh with g := [1/2] } : LBFGS ℚ).g 0 :=
  ⟨by decide, cold_start_step sqrtQ { st_fresh with g := [1/2] } (by decide) (by decide) 0
    (by decide)⟩

/-- C4 (code defect): for the objective `f(x) = -x` from `x = [0]` (`f = 0`,
`g = [-1]`) the line search that follows `compute_lbfgs_step` accepts its first
trial `x = [-1/5]` (it leaves the loop with `nred = 0 < 10`) although
`f_new - f_old = 1/5 - 0` is not below `max_f_rise = 1/10000`: the test compares
`fnew` with the scale factor `f = 1/5`, not with the stored value `f_`. -/
theorem linesearch_accepts_a_rise :
    (linesearch_vars sqrtQ pot_neg (compute_lbfgs_step sqrtQ st_neg)).2.nred = 0 ∧
    (linesearch_vars sqrtQ pot_neg (compute_lbfgs_step sqrtQ st_neg)).2.f = 1/5 ∧
    (backtracking_linesearch sqrtQ pot_neg (compute_lbfgs_step sqrtQ st_neg)).x = [-1/5] ∧
    (backtracking_linesearch sqrtQ pot_neg (compute_lbfgs_step sqrtQ st_neg)).f = 1/5 ∧
    (compute_lbfgs_step sqrtQ st_neg).f = 0 ∧
    ¬ ((backtracking_linesearch sqrtQ pot_neg (compute_lbfgs_step sqrtQ st_neg)).f
        - (compute_lbfgs_step sqrtQ st_neg).f
        < (compute_lbfgs_step sqrtQ st_neg).max_f_rise) := by
  decide!

/-- C6 (code defect): two inputs on which the direction left by the safeguard
has a positive dot product with `g`. With `g = [-1]` the step `[1/10]` of
`compute_lbfgs_step` points downhill (`step . g = -1/10`); the safeguard
replaces it by `[-1]`, which points uphill (`step . g = 1`). With `g = [1]` and
the uphill step `[1]` the safeguard changes nothing. -/
theorem direction_safeguard_leaves_ascent :
    (compute_lbfgs_step sqrtQ st_neg).step = [1/10] ∧
    (direction_safeguard (compute_lbfgs_step sqrtQ st_neg)).step = [-1] ∧
    vecdot (direction_safeguard (compute_lbfgs_step sqrtQ st_neg)).step
      (direction_safeguard (compute_lbfgs_step sqrtQ st_neg)).g 1 = 1 ∧
    (direction_safeguard { st_fresh with g := [1], step := [1] }).step = [1] ∧
    ¬ (vecdot (direction_safeguard { st_fresh with g := [1], step := [1] }).step
      (direction_safeguard { st_fresh with g := [1], step := [1] }).g 1 ≤ 0) := by
  decide!

/-- C9 (code defect): with `N = M = 1`, `k = 0`, `xold = [0]`, `gold = [0]`,
`xnew = [1]`, `gnew = [2]`: `ys = 2 * 1 = 2` and the squared norm of the gradient
difference is `4`, so `H0` should be `1/2`; `update_memory` divides by the squared
norm of the position difference, `1`, and sets `H0 = 2`. -/
theorem update_memory_H0_divides_by_position_norm :
    vecdot (vsub [(2 : ℚ)] [0] 1) (vsub [1] [0] 1) 1 = 2 ∧
    vecdot (vsub [(2 : ℚ)] [0] 1) (vsub [2] [0] 1) 1 = 4 ∧
    vecdot (vsub [(1 : ℚ)] [0] 1) (vsub [1] [0] 1) 1 = 1 ∧
    (update_memory st_fresh [0] [0] [1] [2]).H0 = 2 ∧
    (update_memory st_fresh [0] [0] [1] [2]).H0
      ≠ vecdot (vsub [(2 : ℚ)] [0] 1) (vsub [1] [0] 1) 1
        / vecdot (vsub [(2 : ℚ)] [0] 1) (vsub [2] [0] 1) 1 := by
  decide!

theorem vget_eq_getElem (v : List α) (i : Nat) (h : i < v.length) : vget v i = v[i] := by
  unfold vget
  simp [List.getD_eq_getElem?_getD, h]

/-- Two vectors of `N` entries with the same reads are equal. -/
theorem list_eq_of_vget (u v : List α) (N : Nat) (hu : u.length = N) (hv : v.length = N)
    (h : ∀ j, j < N → vget u j = vget v j) : u = v := by
  apply List.ext_getElem (by rw [hu, hv])
  intro n h1 h2
  rw [← vget_eq_getElem u n h1, ← vget_eq_getElem v n h2]
  exact h n (by omega)

theorem length_vaxpy (q : List α) (c : α) (r : List α) (N : Nat) :
    (vaxpy q c r N).length = N := by
  simp [vaxpy]

theorem vget_vaxpy (q : List α) (c : α) (r : List α) (N j : Nat) (hj : j < N) :
    vget (vaxpy q c r N) j = vget q j + c * vget r j := by
  unfold vaxpy vget
  simp [List.getD_eq_getElem?_getD, List.getElem?_map, List.getElem?_range, hj]

/-- The vector `xnew` after the loop over `j2` of one line-search pass is
`x + f * step` on `N` coordinates. -/
theorem trial_point_eq_vaxpy (x step xnew : List α) (f : α) (N : Nat)
    (hlen : xnew.length = N) :
    forLoop N (fun j2 (xn : List α) => xn.set j2 (vget x j2 + f * vget step j2)) xnew
      = vaxpy x f step N := by
  apply list_eq_of_vget _ _ N
  · rw [trial_point_length]; exact hlen
  · exact length_vaxpy _ _ _ _
  · intro j hj
    rw [trial_point x step xnew f N j hlen hj, vget_vaxpy _ _ _ _ _ hj]

/-- One pass of the line-search loop. -/
theorem linesearch_loop_succ (pot : List α → α × List α) (r : Nat) (st : LBFGS α)
    (v : LSVars α) (hlen : v.xnew.length = st.N) :
    linesearch_loop pot (r + 1) (st, v) =
      if (pot (vaxpy st.x v.f st.step st.N)).1 - v.f < st.max_f_rise then
        ({ st with nfev := st.nfev + 1 },
          { v with xnew := vaxpy st.x v.f st.step st.N,
                   fnew := (pot (vaxpy st.x v.f st.step st.N)).1,
                   gnew := (pot (vaxpy st.x v.f st.step st.N)).2 })
      else
        linesearch_loop pot r
          ({ st with nfev := st.nfev + 1 },
            { xnew := vaxpy st.x v.f st.step st.N,
              gnew := (pot (vaxpy st.x v.f st.step st.N)).2,
              fnew := (pot (vaxpy st.x v.f st.step st.N)).1,
              f := v.f / 10, nred := v.nred + 1 }) := by
  rw [linesearch_loop]
  simp only [compute_func_gradient, trial_point_eq_vaxpy st.x st.step v.xnew v.f st.N hlen]

/-- One pass of the line-search loop, for the list of the trial points. -/
theorem linesearch_loop_trials_succ (pot : List α → α × List α) (r : Nat) (st : LBFGS α)
    (v : LSVars α) (hlen : v.xnew.length = st.N) :
    linesearch_loop_trials pot (r + 1) (st, v) =
      if (pot (vaxpy st.x v.f st.step st.N)).1 - v.f < st.max_f_rise then
        [vaxpy st.x v.f st.step st.N]
      else
        vaxpy st.x v.f st.step st.N :: linesearch_loop_trials pot r
          ({ st with nfev := st.nfev + 1 },
            { xnew := vaxpy st.x v.f st.step st.N,
              gnew := (pot (vaxpy st.x v.f st.step st.N)).2,
              fnew := (pot (vaxpy st.x v.f st.step st.N)).1,
              f := v.f / 10, nred := v.nred + 1 }) := by
  rw [linesearch_loop_trials]
  simp only [compute_func_gradient, trial_point_eq_vaxpy st.x st.step v.xnew v.f st.N hlen]

theorem div_ten_div_pow (a : α) (t : Nat) : a / 10 / 10 ^ t = a / 10 ^ (t + 1) := by
  rw [pow_succ, div_div, mul_comm]

/-- The trial points of the loop: between one and `r + 1` of them, the `t`-th at
`x + (f / 10^t) * step`. -/
theorem linesearch_loop_trials_spec (pot : List α → α × List α) (r : Nat) :
    ∀ (st : LBFGS α) (v : LSVars α), v.xnew.length = st.N →
      1 ≤ (linesearch_loop_trials pot (r + 1) (st, v)).length ∧
      (linesearch_loop_trials pot (r + 1) (st, v)).length ≤ r + 1 ∧
      ∀ t, t < (linesearch_loop_trials pot (r + 1) (st, v)).length →
        (linesearch_loop_trials pot (r + 1) (st, v))[t]?
          = some (vaxpy st.x (v.f / 10 ^ t) st.step st.N) := by
  induction r with
  | zero =>
    intro st v hlen
    rw [linesearch_loop_trials_succ pot 0 st v hlen]
    split_ifs
    · refine ⟨by simp, by simp, fun t ht => ?_⟩
      have ht0 : t = 0 := by simpa using ht
      subst ht0
      simp
    · refine ⟨by simp [linesearch_loop_trials], by simp [linesearch_loop_trials],
        fun t ht => ?_⟩
      have ht0 : t = 0 := by simpa [linesearch_loop_trials] using ht
      subst ht0
      simp
  | succ r ih =>
    intro st v hlen
    rw [linesearch_loop_trials_succ pot (r + 1) st v hlen]
    split_ifs
    · refine ⟨by simp, by simp, fun t ht => ?_⟩
      have ht0 : t = 0 := by simpa using ht
      subst ht0
      simp
    · obtain ⟨h1, h2, h3⟩ := ih { st with nfev := st.nfev + 1 }
        { xnew := vaxpy st.x v.f st.step st.N,
          gnew := (pot (vaxpy st.x v.f st.step st.N)).2,
          fnew := (pot (vaxpy st.x v.f st.step st.N)).1,
          f := v.f / 10, nred := v.nred + 1 } (length_vaxpy _ _ _ _)
      refine ⟨by simp, by simpa using h2, fun t ht => ?_⟩
      cases t with
      | zero => simp
      | succ t =>
        have ht2 : t < (linesearch_loop_trials pot (r + 1)
            ({ st with nfev := st.nfev + 1 },
              { xnew := vaxpy st.x v.f st.step st.N,
                gnew := (pot (vaxpy st.x v.f st.step st.N)).2,
                fnew := (pot (vaxpy st.x v.f st.step st.N)).1,
                f := v.f / 10, nred := v.nred + 1 })).length := by simpa using ht
        rw [List.getElem?_cons_succ, h3 t ht2]
        simp only [div_ten_div_pow]

/-- What the loop leaves, in terms of its trial points: `nfev_` has grown by their
number, `xnew` is the last of them, and `fnew`, `gnew` are the outputs of the
evaluator there. -/
theorem linesearch_loop_result (pot : List α → α × List α) (r : Nat) :
    ∀ (st : LBFGS α) (v : LSVars α), v.xnew.length = st.N →
      (linesearch_loop pot (r + 1) (st, v)).1
        = { st with nfev := st.nfev + (linesearch_loop_trials pot (r + 1) (st, v)).length } ∧
      (linesearch_loop_trials pot (r + 1) (st, v)).getLast?
        = some (linesearch_loop pot (r + 1) (st, v)).2.xnew ∧
      (linesearch_loop pot (r + 1) (st, v)).2.fnew
        = (pot (linesearch_loop pot (r + 1) (st, v)).2.xnew).1 ∧
      (linesearch_loop pot (r + 1) (st, v)).2.gnew
        = (pot (linesearch_loop pot (r + 1) (st, v)).2.xnew).2 := by
  induction r with
  | zero =>
    intro st v hlen
    rw [linesearch_loop_succ pot 0 st v hlen, linesearch_loop_trials_succ pot 0 st v hlen]
    split_ifs
    · exact ⟨rfl, rfl, rfl, rfl⟩
    · exact ⟨rfl, rfl, rfl, rfl⟩
  | succ r ih =>
    intro st v hlen
    rw [linesearch_loop_succ pot (r + 1) st v hlen,
      linesearch_loop_trials_succ pot (r + 1) st v hlen]
    split_ifs
    · exact ⟨rfl, rfl, rfl, rfl⟩
    · obtain ⟨h1, h2, h3, h4⟩ := ih { st with nfev := st.nfev + 1 }
        { xnew := vaxpy st.x v.f st.step st.N,
          gnew := (pot (vaxpy st.x v.f st.step st.N)).2,
          fnew := (pot (vaxpy st.x v.f st.step st.N)).1,
          f := v.f / 10, nred := v.nred + 1 } (length_vaxpy _ _ _ _)
      refine ⟨?_, ?_, h3, h4⟩
      · rw [h1]
        simp only [List.length_cons]
        have hn : ∀ n : Nat, st.nfev + 1 + n = st.nfev + (n + 1) := fun n => by omega
        rw [hn]
      · rw [List.getLast?_cons, h2]
        rfl

/-- When no trial passes the test, the loop makes all its `r + 1` passes and
leaves the last trial point `x + (f / 10^r) * step` in `xnew`. -/
theorem linesearch_loop_exhausted (pot : List α → α × List α) (r : Nat) :
    ∀ (st : LBFGS α) (v : LSVars α), v.xnew.length = st.N →
      (∀ t, t ≤ r →
        ¬ ((pot (vaxpy st.x (v.f / 10 ^ t) st.step st.N)).1 - v.f / 10 ^ t < st.max_f_rise)) →
      (linesearch_loop pot (r + 1) (st, v)).2.xnew = vaxpy st.x (v.f / 10 ^ r) st.step st.N ∧
      (linesearch_loop pot (r + 1) (st, v)).2.nred = v.nred + (r + 1) ∧
      (linesearch_loop_trials pot (r + 1) (st, v)).length = r + 1 := by
  induction r with
  | zero =>
    intro st v hlen hfail
    have h0 := hfail 0 (le_refl 0)
    simp only [pow_zero, div_one] at h0
    rw [linesearch_loop_succ pot 0 st v hlen, linesearch_loop_trials_succ pot 0 st v hlen,
      if_neg h0, if_neg h0]
    simp [linesearch_loop, linesearch_loop_trials]
  | succ r ih =>
    intro st v hlen hfail
    have h0 := hfail 0 (Nat.zero_le _)
    simp only [pow_zero, div_one] at h0
    rw [linesearch_loop_succ pot (r + 1) st v hlen,
      linesearch_loop_trials_succ pot (r + 1) st v hlen, if_neg h0, if_neg h0]
    obtain ⟨h1, h2, h3⟩ := ih { st with nfev := st.nfev + 1 }
      { xnew := vaxpy st.x v.f st.step st.N,
        gnew := (pot (vaxpy st.x v.f st.step st.N)).2,
        fnew := (pot (vaxpy st.x v.f st.step st.N)).1,
        f := v.f / 10, nred := v.nred + 1 } (length_vaxpy _ _ _ _)
      (by
        intro t ht
        have := hfail (t + 1) (by omega)
        simpa only [div_ten_div_pow] using this)
    refine ⟨?_, ?_, ?_⟩
    · rw [h1]
      simp only [div_ten_div_pow]
    · rw [h2]
      show v.nred + 1 + (r + 1) = v.nred + (r + 1 + 1)
      omega
    · simp only [List.length_cons, h3]

/-- The safeguard changes no member but `step_`. -/
theorem direction_safeguard_eq (st : LBFGS α) :
    direction_safeguard st = { st with step := (direction_safeguard st).step } := by
  unfold direction_safeguard
  by_cases h : vecdot st.step st.g st.N < 0
  · rw [if_pos h, forLoop_step st (fun _ _ => -1) (fun _ _ => -1) (fun _ _ => rfl)]
  · rw [if_neg h]

theorem linesearch_init_length (sqrt : α → α) (st : LBFGS α) :
    (linesearch_init sqrt st).2.xnew.length = (linesearch_init sqrt st).1.N := by
  simp [linesearch_init]

theorem linesearch_vars_eq (sqrt : α → α) (pot : List α → α × List α) (st : LBFGS α) :
    linesearch_vars sqrt pot st = linesearch_loop pot 10 (linesearch_init sqrt st) := rfl

/-! ### The passes of `compute_lbfgs_step` -/

/-- A loop that writes one entry per pass keeps the length. -/
theorem length_forLoop_write (G : Nat → List α → α) (v0 : List α) (n : Nat) :
    (forLoop n (fun j (v : List α) => v.set j (G j v)) v0).length = v0.length := by
  induction n with
  | zero => rfl
  | succ n ih => rw [forLoop_succ, List.length_set, ih]

/-- One pass of the loop "backwards through the memory": it writes `alpha_[i]`
and `step_`, nothing else. -/
theorem backward_body_eq (j : Nat) (t : LBFGS α) :
    backward_body j t =
      { t with
        alpha := t.alpha.set (j % t.M)
          (vget t.rho (j % t.M) * vecdot (mrow t.s (j % t.M)) t.step t.N),
        step := forLoop t.N (fun j2 (v : List α) =>
          v.set j2 (vget v j2
            - vget (t.alpha.set (j % t.M)
                (vget t.rho (j % t.M) * vecdot (mrow t.s (j % t.M)) t.step t.N)) (j % t.M)
              * vget (mrow t.y (j % t.M)) j2)) t.step } := by
  unfold backward_body
  simp only []
  rw [forLoop_step _ (fun j2 (u : LBFGS α) =>
      vget u.step j2 - vget u.alpha (j % t.M) * vget (mrow u.y (j % t.M)) j2)
    (fun j2 a => a
      - vget (t.alpha.set (j % t.M)
          (vget t.rho (j % t.M) * vecdot (mrow t.s (j % t.M)) t.step t.N)) (j % t.M)
        * vget (mrow t.y (j % t.M)) j2) (fun _ _ => rfl)]

/-- The backward passes keep `N_`, `M_`, `H0_`, `k_` and the length of `step_`. -/
theorem backward_fold_frame (L : List Nat) :
    ∀ t : LBFGS α,
      (L.foldl (fun (t : LBFGS α) j => backward_body j t) t).N = t.N ∧
      (L.foldl (fun (t : LBFGS α) j => backward_body j t) t).M = t.M ∧
      (L.foldl (fun (t : LBFGS α) j => backward_body j t) t).H0 = t.H0 ∧
      (L.foldl (fun (t : LBFGS α) j => backward_body j t) t).k = t.k ∧
      (L.foldl (fun (t : LBFGS α) j => backward_body j t) t).step.length = t.step.length := by
  induction L with
  | nil => intro t; exact ⟨rfl, rfl, rfl, rfl, rfl⟩
  | cons j L ih =>
    intro t
    rw [List.foldl_cons]
    obtain ⟨h1, h2, h3, h4, h5⟩ := ih (backward_body j t)
    rw [h1, h2, h3, h4, h5, backward_body_eq]
    refine ⟨rfl, rfl, rfl, rfl, ?_⟩
    exact length_forLoop_write _ _ _

/-- The loop `for (int j = jmin; j < jmin; ++j)` has no pass. -/
theorem forward_visits_nil (k M : Nat) : forward_visits k M = [] := by
  simp [forward_visits, forward_js]

/-- In the branch `k_ > 0`, `compute_lbfgs_step` is the backward pass followed by
the scaling by `H0_` and the change of sign. -/
theorem compute_lbfgs_step_warm (sqrt : α → α) (st : LBFGS α) (hk : st.k ≠ 0) :
    compute_lbfgs_step sqrt st =
      forLoop (backward_pass st).N (fun j2 (u : LBFGS α) =>
          { u with step := u.step.set j2 (vget u.step j2 * (-1)) })
        (forLoop (backward_pass st).N (fun j2 (u : LBFGS α) =>
            { u with step := u.step.set j2 (vget u.step j2 * u.H0) })
          (backward_pass st)) := by
  unfold compute_lbfgs_step
  rw [if_neg hk]
  simp only [forward_visits_nil, List.foldl_nil]
  have hN : (forLoop (backward_pass st).N (fun j2 (u : LBFGS α) =>
      { u with step := u.step.set j2 (vget u.step j2 * u.H0) }) (backward_pass st)).N
      = (backward_pass st).N := by
    rw [forLoop_step (backward_pass st) (fun j2 (u : LBFGS α) => vget u.step j2 * u.H0)
      (fun _ a => a * (backward_pass st).H0) (fun _ _ => rfl)]
  unfold backward_pass at hN ⊢
  rw [hN]

/-! ### The direction safeguard -/

/-- When the safeguard fires, every one of the `N` entries of `step_` is `-1`. -/
theorem direction_safeguard_fires (st : LBFGS α) (hlen : st.step.length = st.N)
    (h : vecdot st.step st.g st.N < 0) :
    (direction_safeguard st).step = List.replicate st.N (-1) := by
  unfold direction_safeguard
  rw [if_pos h, forLoop_step st (fun _ _ => -1) (fun _ _ => -1) (fun _ _ => rfl)]
  simp only []
  apply list_eq_of_vget _ _ st.N
  · rw [length_forLoop_write]; exact hlen
  · simp
  · intro j hj
    have key := vget_forLoop_set (fun (_ : Nat) (_ : α) => (-1 : α)) st.step st.N j (by omega)
    rw [if_pos hj] at key
    rw [key, vget_replicate, if_pos hj]

/-- The squared norm of the vector of `N` entries `-1` is `N`. -/
theorem vecdot_replicate_neg_one (N : Nat) :
    vecdot (List.replicate N (-1 : α)) (List.replicate N (-1 : α)) N = (N : α) := by
  rw [vecdot_eq_sum]
  have h : ∀ i ∈ Finset.range N,
      vget (List.replicate N (-1 : α)) i * vget (List.replicate N (-1 : α)) i = 1 := by
    intro i hi
    rw [vget_replicate, if_pos (Finset.mem_range.mp hi)]
    ring
  rw [Finset.sum_congr rfl h]
  simp

/-- The initial scale factor when the safeguard has fired only depends on `N` and
`maxstep_`. -/
theorem linesearch_f0_fired (sqrt : α → α) (st : LBFGS α) (hlen : st.step.length = st.N)
    (h : vecdot st.step st.g st.N < 0) :
    linesearch_f0 sqrt st
      = if sqrt (st.N : α) > st.maxstep then st.maxstep / sqrt (st.N : α) else 1 := by
  obtain ⟨_, hN, hms⟩ := direction_safeguard_frame st
  unfold linesearch_f0 linesearch_init
  simp only [hN, hms, one_mul]
  rw [direction_safeguard_fires st hlen h]
  unfold vecnorm
  rw [vecdot_replicate_neg_one]

theorem checked_div_some (a b : α) (hb : b ≠ 0) : checked_div a b = some (a / b) := by
  unfold checked_div
  rw [if_neg hb]

theorem checked_mod_some (a m : Nat) (hm : 1 ≤ m) : checked_mod a m = some (a % m) := by
  unfold checked_mod
  rw [if_neg (by omega)]

theorem checked_slot_mod (a m : Nat) (hm : 1 ≤ m) :
    checked_slot (a % m) m = some (a % m) := by
  unfold checked_slot
  rw [if_pos (Nat.mod_lt _ (by omega))]

/-- The guard `if (ys == 0.) ys = 1.;` leaves a nonzero number. -/
theorem zero_guard_ne_zero (a : α) : (if a = 0 then (1 : α) else a) ≠ 0 := by
  split_ifs with h
  · exact one_ne_zero
  · exact h

theorem update_memory_checked_eq (st : LBFGS α) (xold gold xnew gnew : List α)
    (hM : 1 ≤ st.M) :
    update_memory_checked st xold gold xnew gnew
      = some (update_memory st xold gold xnew gnew) := by
  unfold update_memory_checked update_memory
  simp only [checked_mod_some _ _ hM, checked_slot_mod _ _ hM, Option.bind_eq_bind,
    Option.some_bind, checked_div_some _ _ (zero_guard_ne_zero _), Option.pure_def]

theorem backward_body_checked_eq (j : Nat) (t : LBFGS α) (hM : 1 ≤ t.M) :
    backward_body_checked j t = some (backward_body j t) := by
  unfold backward_body_checked
  simp only [checked_mod_some _ _ hM, checked_slot_mod _ _ hM, Option.bind_eq_bind,
    Option.some_bind, Option.pure_def]
  rfl

theorem backward_foldlM_eq (L : List Nat) :
    ∀ t : LBFGS α, 1 ≤ t.M →
      L.foldlM (fun (t : LBFGS α) j => backward_body_checked j t) t
        = some (L.foldl (fun (t : LBFGS α) j => backward_body j t) t) := by
  induction L with
  | nil => intro t _; rfl
  | cons j L ih =>
    intro t hM
    rw [List.foldlM_cons, backward_body_checked_eq j t hM, List.foldl_cons]
    have hM2 : 1 ≤ (backward_body j t).M := by
      rw [backward_body_eq]
      exact hM
    exact ih (backward_body j t) hM2

theorem compute_lbfgs_step_checked_eq (sqrt : α → α) (st : LBFGS α) (hM : 1 ≤ st.M) :
    compute_lbfgs_step_checked sqrt st = some (compute_lbfgs_step sqrt st) := by
  unfold compute_lbfgs_step_checked compute_lbfgs_step
  by_cases hk : st.k = 0
  · rw [if_pos hk, if_pos hk]
    by_cases hg : vecnorm sqrt st.g st.N > 1
    · have hne : vecnorm sqrt st.g st.N ≠ 0 := ne_of_gt (lt_trans zero_lt_one hg)
      simp only [if_pos hg, checked_div_some _ _ hne, Option.bind_eq_bind, Option.some_bind,
        Option.pure_def]
    · simp only [if_neg hg, Option.bind_eq_bind, Option.some_bind, Option.pure_def]
  · rw [if_neg hk, if_neg hk]
    simp only [forward_visits_nil, List.foldlM_nil, List.foldl_nil, Option.bind_eq_bind,
      Option.pure_def, Option.some_bind,
      backward_foldlM_eq (backward_visits st.k st.M) ({ st with step := st.g } : LBFGS α) hM]

theorem linesearch_loop_checked_eq (pot : List α → α × List α) (r : Nat) :
    ∀ p : LBFGS α × LSVars α,
      linesearch_loop_checked pot r p = some (linesearch_loop pot r p) := by
  induction r with
  | zero => intro p; rfl
  | succ r ih =>
    intro p
    obtain ⟨st, v⟩ := p
    rw [linesearch_loop_checked, linesearch_loop]
    split_ifs
    · rfl
    · rw [checked_div_some _ _ (by norm_num : (10 : α) ≠ 0), Option.some_bind]
      exact ih _

theorem backtracking_linesearch_checked_eq (sqrt : α → α)
    (hs1 : ∀ a, 0 ≤ a → sqrt a * sqrt a = a) (pot : List α → α × List α) (st : LBFGS α)
    (hN : 1 ≤ st.N) (hmax : 0 ≤ st.maxstep) :
    backtracking_linesearch_checked sqrt pot st
      = some (backtracking_linesearch sqrt pot st) := by
  obtain ⟨_, hN1, hms⟩ := direction_safeguard_frame st
  obtain ⟨h1, _, _, _⟩ := linesearch_loop_result pot 9 (linesearch_init sqrt st).1
    (linesearch_init sqrt st).2 (linesearch_init_length sqrt st)
  have hNp : (linesearch_vars sqrt pot st).1.N = st.N := by
    rw [linesearch_vars_eq]
    have := congrArg LBFGS.N h1
    rw [this]
    exact hN1
  have hsq : sqrt ((linesearch_vars sqrt pot st).1.N : α) ≠ 0 := by
    rw [hNp]
    intro h0
    have hpos : (0 : α) < (st.N : α) := by exact_mod_cast hN
    have := hs1 (st.N : α) (le_of_lt hpos)
    rw [h0, mul_zero] at this
    exact (ne_of_gt hpos) this.symm
  unfold backtracking_linesearch_checked backtracking_linesearch
  by_cases hc : 1 * vecnorm sqrt (direction_safeguard st).step (direction_safeguard st).N
      > (direction_safeguard st).maxstep
  · have hne : vecnorm sqrt (direction_safeguard st).step (direction_safeguard st).N ≠ 0 := by
      rw [one_mul, hms] at hc
      exact ne_of_gt (lt_of_le_of_lt hmax hc)
    have hv : linesearch_vars sqrt pot st
        = linesearch_loop pot 10 (direction_safeguard st,
            { xnew := List.replicate (direction_safeguard st).N 0,
              gnew := List.replicate (direction_safeguard st).N 0, fnew := 0,
              f := (direction_safeguard st).maxstep
                / vecnorm sqrt (direction_safeguard st).step (direction_safeguard st).N,
              nred := 0 }) := by
      unfold linesearch_vars
      simp only [if_pos hc]
    rw [hv] at hsq ⊢
    simp only [if_pos hc, checked_div_some _ _ hne, Option.bind_eq_bind, Option.some_bind,
      linesearch_loop_checked_eq, checked_div_some _ _ hsq, Option.pure_def]
  · have hv : linesearch_vars sqrt pot st
        = linesearch_loop pot 10 (direction_safeguard st,
            { xnew := List.replicate (direction_safeguard st).N 0,
              gnew := List.replicate (direction_safeguard st).N 0, fnew := 0,
              f := 1, nred := 0 }) := by
      unfold linesearch_vars
      simp only [if_neg hc]
    rw [hv] at hsq ⊢
    simp only [if_neg hc, Option.bind_eq_bind, Option.some_bind,
      linesearch_loop_checked_eq, checked_div_some _ _ hsq, Option.pure_def]

/-- C11: in a state with `rms ≤ tol`, `run()` leaves the whole state as it is:
`nfev` (no evaluator call), `x`, `f`, `g`, `k`, `H0` and the history buffer are
unchanged; hence a second `run()` after one that ended by convergence changes
nothing. -/
theorem run_converged_noop (sqrt : α → α) (pot : List α → α × List α) (st : LBFGS α)
    (h : st.rms ≤ st.tol) :
    run sqrt pot st = st ∧ (run sqrt pot st).nfev = st.nfev ∧
    run sqrt pot (run sqrt pot st) = run sqrt pot st := by
  have h1 : run sqrt pot st = st := by
    unfold run
    cases st.maxiter with
    | zero => rfl
    | succ r => simp [run_loop, stop_criterion_satisfied, h]
  refine ⟨h1, ?_, ?_⟩
  · rw [h1]
  · rw [h1, h1]

/-- Instance of `run_converged_noop`: the state `st_fresh` has `rms = 0` and
`tol = 1/10000`. -/
theorem run_converged_noop_witness :
    st_fresh.rms ≤ st_fresh.tol ∧ run sqrtQ pot_neg st_fresh = st_fresh :=
  ⟨by decide!, (run_converged_noop sqrtQ pot_neg st_fresh (by decide!)).1⟩

/-- C12 (code defect): for every evaluator, every initial point `x0` and every
`M`, when `N ≥ 1` the constructor produces no state: the copy `x_[j2] = x0[j2]`
writes entry `0` of `x_` before `x_` has any entry, the allocation of `x_` (and
of `g_`) coming only after the evaluation and `rms_`. So no constructed state
has `x = x0` with `f`, `g` and `rms` of the evaluator at `x0`. -/
theorem constructor_writes_before_allocation (sqrt : α → α) (pot : List α → α × List α)
    (x0 : List α) (N M : Nat) (hN : 1 ≤ N) :
    LBFGS.construct sqrt pot x0 N M = none := by
  obtain ⟨n, rfl⟩ : ∃ n, N = n + 1 := ⟨N - 1, by omega⟩
  unfold LBFGS.construct
  have h0 : checked_write ([] : List α) 0 (vget x0 0) = none := by
    simp [checked_write]
  simp only [LBFGS.unset, List.range_succ_eq_map, List.foldlM_cons, h0,
    Option.bind_eq_bind, Option.none_bind]

/-- Instance of `constructor_writes_before_allocation`: `x0 = [1]`, `N = 1`,
`M = 1`, the objective `f(x) = -x`. -/
theorem constructor_writes_before_allocation_witness :
    1 ≤ 1 ∧ LBFGS.construct sqrtQ pot_neg [1] 1 1 = none :=
  ⟨le_refl 1, constructor_writes_before_allocation sqrtQ pot_neg [1] 1 1 (le_refl 1)⟩

/-- C13: for every evaluator `pot`, state and step, after
`backtracking_linesearch` (a trial accepted or the reductions exhausted) `x` is
the last point at which the evaluator was called, `f` and `g` are the value and
the gradient of the evaluator at that `x`, and `rms = ||g|| / sqrt(N)`. -/
theorem linesearch_state_consistent (sqrt : α → α) (pot : List α → α × List α)
    (st : LBFGS α) :
    (linesearch_trials sqrt pot st).getLast? = some (backtracking_linesearch sqrt pot st).x ∧
    (backtracking_linesearch sqrt pot st).f = (pot (backtracking_linesearch sqrt pot st).x).1 ∧
    (backtracking_linesearch sqrt pot st).g = (pot (backtracking_linesearch sqrt pot st).x).2 ∧
    (backtracking_linesearch sqrt pot st).rms
      = vecnorm sqrt (backtracking_linesearch sqrt pot st).g (backtracking_linesearch sqrt pot st).N
        / sqrt ((backtracking_linesearch sqrt pot st).N : α) := by
  obtain ⟨_, h2, h3, h4⟩ := linesearch_loop_result pot 9 (linesearch_init sqrt st).1
    (linesearch_init sqrt st).2 (linesearch_init_length sqrt st)
  exact ⟨h2, h3, h4, rfl⟩

/-- C14: when none of the 10 trials `x_old + (f0 / 10^t) * step`, `t = 0..9`,
passes the test of the loop (`fnew - f < max_f_rise` with the current scale
factor `f = f0 / 10^t`), `backtracking_linesearch` makes its 10 passes and stores
the 10th trial point `x_old + (f0 / 10^9) * step` as `x`, with the value and the
gradient of the evaluator there; `step` is the step left by the safeguard and
`f0` the initial scale factor. -/
theorem linesearch_exhausted_keeps_last_trial (sqrt : α → α) (pot : List α → α × List α)
    (st : LBFGS α)
    (hfail : ∀ t, t < 10 →
      ¬ ((pot (vaxpy st.x (linesearch_f0 sqrt st / 10 ^ t)
            (direction_safeguard st).step st.N)).1
          - linesearch_f0 sqrt st / 10 ^ t < st.max_f_rise)) :
    (backtracking_linesearch sqrt pot st).x
      = vaxpy st.x (linesearch_f0 sqrt st / 10 ^ 9) (direction_safeguard st).step st.N ∧
    (backtracking_linesearch sqrt pot st).f
      = (pot (vaxpy st.x (linesearch_f0 sqrt st / 10 ^ 9)
          (direction_safeguard st).step st.N)).1 ∧
    (backtracking_linesearch sqrt pot st).g
      = (pot (vaxpy st.x (linesearch_f0 sqrt st / 10 ^ 9)
          (direction_safeguard st).step st.N)).2 ∧
    (linesearch_vars sqrt pot st).2.nred = 10 ∧
    (linesearch_trials sqrt pot st).length = 10 := by
  obtain ⟨hx, hN, _⟩ := direction_safeguard_frame st
  have hm : (direction_safeguard st).max_f_rise = st.max_f_rise := by
    rw [direction_safeguard_eq]
  obtain ⟨h1, h2, h3⟩ := linesearch_loop_exhausted pot 9 (linesearch_init sqrt st).1
    (linesearch_init sqrt st).2 (linesearch_init_length sqrt st) (by
      intro t ht
      have := hfail t (by omega)
      show ¬ ((pot (vaxpy (direction_safeguard st).x (linesearch_f0 sqrt st / 10 ^ t)
            (direction_safeguard st).step (direction_safeguard st).N)).1
          - linesearch_f0 sqrt st / 10 ^ t < (direction_safeguard st).max_f_rise)
      rw [hx, hN, hm]
      exact this)
  obtain ⟨_, _, h5, h6⟩ := linesearch_loop_result pot 9 (linesearch_init sqrt st).1
    (linesearch_init sqrt st).2 (linesearch_init_length sqrt st)
  have h1b : (backtracking_linesearch sqrt pot st).x
      = vaxpy st.x (linesearch_f0 sqrt st / 10 ^ 9) (direction_safeguard st).step st.N := by
    rw [← hx, ← hN]
    exact h1
  refine ⟨h1b, ?_, ?_, h2, h3⟩
  · rw [← h1b]; exact h5
  · rw [← h1b]; exact h6

/-- Instance of `linesearch_exhausted_keeps_last_trial`: the objective
`f(x) = 5 + x` from `x = [0]` with `g = [-1]` and the step `[1/10]`; no trial
passes, and `x` becomes `[-(1/5) / 10^9]`. -/
theorem linesearch_exhausted_keeps_last_trial_witness :
    (∀ t, t < 10 →
      ¬ ((pot_high (vaxpy st_neg_step.x (linesearch_f0 sqrtQ st_neg_step / 10 ^ t)
            (direction_safeguard st_neg_step).step st_neg_step.N)).1
          - linesearch_f0 sqrtQ st_neg_step / 10 ^ t < st_neg_step.max_f_rise)) ∧
    (backtracking_linesearch sqrtQ pot_high st_neg_step).x = [-1/5000000000] :=
  ⟨by decide!,
    (linesearch_exhausted_keeps_last_trial sqrtQ pot_high st_neg_step (by decide!)).1.trans
      (by decide!)⟩

/-- C17: one call of `backtracking_linesearch` calls the evaluator at least once
and at most 10 times, `nfev` grows by the number of the calls, and the `t`-th
call (`t = 0..9`) is at `x_old + (f0 / 10^t) * step`, where `step` is the step left
by the safeguard and `f0` the initial scale factor. The function is total, so
the call terminates. -/
theorem linesearch_evaluator_calls (sqrt : α → α) (pot : List α → α × List α)
    (st : LBFGS α) :
    1 ≤ (linesearch_trials sqrt pot st).length ∧
    (linesearch_trials sqrt pot st).length ≤ 10 ∧
    (backtracking_linesearch sqrt pot st).nfev
      = st.nfev + (linesearch_trials sqrt pot st).length ∧
    ∀ t, t < (linesearch_trials sqrt pot st).length →
      (linesearch_trials sqrt pot st)[t]?
        = some (vaxpy st.x (linesearch_f0 sqrt st / 10 ^ t)
            (direction_safeguard st).step st.N) := by
  obtain ⟨hx, hN, _⟩ := direction_safeguard_frame st
  have hn : (direction_safeguard st).nfev = st.nfev := by
    rw [direction_safeguard_eq]
  obtain ⟨h1, h2, h3⟩ := linesearch_loop_trials_spec pot 9 (linesearch_init sqrt st).1
    (linesearch_init sqrt st).2 (linesearch_init_length sqrt st)
  obtain ⟨h4, _, _, _⟩ := linesearch_loop_result pot 9 (linesearch_init sqrt st).1
    (linesearch_init sqrt st).2 (linesearch_init_length sqrt st)
  refine ⟨h1, h2, ?_, ?_⟩
  · have h5 : (backtracking_linesearch sqrt pot st).nfev
        = (linesearch_loop pot 10 (linesearch_init sqrt st)).1.nfev := rfl
    rw [h5]
    have h6 := congrArg LBFGS.nfev h4
    rw [← hn]
    exact h6
  · intro t ht
    rw [← hx, ← hN]
    exact h3 t ht

/-- C15: for a gradient `g` of norm exactly `1`, with `k == 0` and `H0 = 0.1`, in
a state whose `step` buffer has its `N` entries, `compute_lbfgs_step` produces
`step = -0.1 * g` componentwise. -/
theorem cold_start_unit_gradient (sqrt : α → α) (st : LBFGS α) (hk : st.k = 0)
    (hH : st.H0 = 1 / 10) (hg : vecnorm sqrt st.g st.N = 1)
    (hlen : st.step.length = st.N) (i : Nat) (hi : i < st.N) :
    vget (compute_lbfgs_step sqrt st).step i = - (1 / 10) * vget st.g i := by
  rw [compute_lbfgs_step_cold sqrt st hk (by omega) i hi, hg, hH]
  have h1 : ¬ ((1 : α) > 1) := lt_irrefl 1
  rw [if_neg h1]
  ring

/-- Instance of `cold_start_unit_gradient`: `g = [-1]`, where the step is
`[1/10]`. -/
theorem cold_start_unit_gradient_witness :
    (st_neg.k = 0 ∧ st_neg.H0 = 1 / 10 ∧ vecnorm sqrtQ st_neg.g st_neg.N = 1 ∧
      st_neg.step.length = st_neg.N ∧ 0 < st_neg.N) ∧
    vget (compute_lbfgs_step sqrtQ st_neg).step 0 = - (1 / 10) * vget st_neg.g 0 :=
  ⟨by decide!,
    cold_start_unit_gradient sqrtQ st_neg (by decide) (by decide!) (by decide!) (by decide) 0
      (by decide)⟩

/-- C16: for every state with `k > 0` (and a gradient of `N` entries) the forward
pass of `compute_lbfgs_step` makes no iteration, the function is the backward
pass followed by the scaling and the change of sign, and the resulting step is
`-H0 * q` componentwise, where `q` is the vector obtained from `g` by the
backward pass alone: no `beta` is computed and no `alpha` read after the
backward pass. -/
theorem forward_pass_never_runs (sqrt : α → α) (st : LBFGS α) (hk : 0 < st.k)
    (hlen : st.g.length = st.N) :
    forward_visits st.k st.M = [] ∧
    (∀ j, j < st.N →
      vget (compute_lbfgs_step sqrt st).step j = - (st.H0 * vget (backward_pass st).step j)) := by
  refine ⟨forward_visits_nil _ _, fun j hj => ?_⟩
  obtain ⟨hN, _, hH, _, hl⟩ := backward_fold_frame (backward_visits st.k st.M)
    ({ st with step := st.g } : LBFGS α)
  have hN2 : (backward_pass st).N = st.N := hN
  have hH2 : (backward_pass st).H0 = st.H0 := hH
  have hl2 : (backward_pass st).step.length = st.g.length := hl
  rw [compute_lbfgs_step_warm sqrt st (by omega), hN2]
  rw [forLoop_step (backward_pass st) (fun j2 (u : LBFGS α) => vget u.step j2 * u.H0)
    (fun _ a => a * (backward_pass st).H0) (fun _ _ => rfl)]
  rw [forLoop_step _ (fun j2 (u : LBFGS α) => vget u.step j2 * (-1))
    (fun _ a => a * (-1)) (fun _ _ => rfl)]
  simp only []
  have k1 := vget_forLoop_set (fun (_ : Nat) (a : α) => a * (backward_pass st).H0)
    (backward_pass st).step st.N j (by omega)
  have k2 := vget_forLoop_set (fun (_ : Nat) (a : α) => a * (-1))
    (forLoop st.N (fun j (v : List α) => v.set j (vget v j * (backward_pass st).H0))
      (backward_pass st).step) st.N j
    (by rw [length_forLoop_set (fun (_ : Nat) (a : α) => a * (backward_pass st).H0)]; omega)
  rw [if_pos hj] at k1 k2
  rw [k2, k1, hH2]
  ring

/-- Instance of `forward_pass_never_runs`: the state `st_one_update` (`k = 1`,
`H0 = 1`), where the backward pass leaves `q = [0]`. -/
theorem forward_pass_never_runs_witness :
    (0 < st_one_update.k ∧ st_one_update.g.length = st_one_update.N ∧ 0 < st_one_update.N) ∧
    vget (compute_lbfgs_step sqrtQ st_one_update).step 0
      = - (st_one_update.H0 * vget (backward_pass st_one_update).step 0) :=
  ⟨by decide!,
    (forward_pass_never_runs sqrtQ st_one_update (by decide!) (by decide!)).2 0 (by decide!)⟩

/-- C18: in a state whose `step` buffer has its `N` entries and with
`maxstep > 0`: when `step . g < 0` the safeguard replaces the step by the vector
of `N` entries `-1` (it does not negate it), and the `t`-th trial point of the
line search is `x_old - c * (1, ..., 1)` with
`c = (maxstep / sqrt(N) if sqrt(N) > maxstep, else 1) / 10^t > 0`, which does not
depend on the step computed before; when `step . g ≥ 0` the safeguard leaves the
state, and so the step, unchanged. -/
theorem safeguard_constant_direction (sqrt : α → α) (pot : List α → α × List α)
    (st : LBFGS α) (hlen : st.step.length = st.N) (hmax : 0 < st.maxstep) :
    (vecdot st.step st.g st.N < 0 →
      (direction_safeguard st).step = List.replicate st.N (-1) ∧
      ∀ t, t < (linesearch_trials sqrt pot st).length →
        0 < (if sqrt (st.N : α) > st.maxstep then st.maxstep / sqrt (st.N : α) else 1) / 10 ^ t ∧
        (linesearch_trials sqrt pot st)[t]?
          = some (vaxpy st.x
              (- ((if sqrt (st.N : α) > st.maxstep then st.maxstep / sqrt (st.N : α) else 1)
                  / 10 ^ t))
              (List.replicate st.N 1) st.N)) ∧
    (0 ≤ vecdot st.step st.g st.N → direction_safeguard st = st) := by
  constructor
  · intro h
    refine ⟨direction_safeguard_fires st hlen h, fun t ht => ?_⟩
    have h10 : (0 : α) < 10 ^ t := pow_pos (by norm_num) t
    constructor
    · apply div_pos _ h10
      split_ifs with hc
      · exact div_pos hmax (lt_trans hmax hc)
      · exact zero_lt_one
    · obtain ⟨hx, hN, _⟩ := direction_safeguard_frame st
      obtain ⟨_, _, h3⟩ := linesearch_loop_trials_spec pot 9 (linesearch_init sqrt st).1
        (linesearch_init sqrt st).2 (linesearch_init_length sqrt st)
      have h4 : (linesearch_trials sqrt pot st)[t]?
          = some (vaxpy (direction_safeguard st).x (linesearch_f0 sqrt st / 10 ^ t)
              (direction_safeguard st).step (direction_safeguard st).N) := h3 t ht
      rw [h4, hx, hN, direction_safeguard_fires st hlen h, linesearch_f0_fired sqrt st hlen h]
      congr 1
      apply list_eq_of_vget _ _ st.N (length_vaxpy _ _ _ _) (length_vaxpy _ _ _ _)
      intro j hj
      rw [vget_vaxpy _ _ _ _ _ hj, vget_vaxpy _ _ _ _ _ hj, vget_replicate, vget_replicate,
        if_pos hj, if_pos hj]
      ring
  · intro h
    unfold direction_safeguard
    rw [if_neg (not_lt.mpr h)]

/-- Instance of `safeguard_constant_direction`: `g = [-1]` and the step `[1/10]`,
which points downhill and is replaced by `[-1]`. -/
theorem safeguard_constant_direction_witness :
    (st_neg_step.step.length = st_neg_step.N ∧ 0 < st_neg_step.maxstep ∧
      vecdot st_neg_step.step st_neg_step.g st_neg_step.N < 0) ∧
    (direction_safeguard st_neg_step).step = List.replicate st_neg_step.N (-1) :=
  ⟨by decide!,
    ((safeguard_constant_direction sqrtQ pot_high st_neg_step (by decide!) (by decide!)).1
      (by decide!)).1⟩

/-- C20: for a `sqrt` that is a square root on the nonnegative numbers and a
state with `N ≥ 1`, `M ≥ 1` and `maxstep ≥ 0` (`k ≥ 0` holds of every counter), the
versions of `update_memory`, `compute_lbfgs_step` and `backtracking_linesearch`
that stop at a zero divisor (`1/ys`, `ys/yy`, `1/gnorm`, `maxstep/stepsize`,
`f/10`, `k mod M`, `j mod M`, `||g||/sqrt(N)`) or at a history index outside
`[0, M)` never stop: they return what the functions return; and the indices
`k mod M` and `j mod M` lie in `[0, M)`. -/
theorem no_zero_divisor_no_index_out_of_range (sqrt : α → α)
    (hs1 : ∀ a, 0 ≤ a → sqrt a * sqrt a = a) (pot : List α → α × List α) (st : LBFGS α)
    (xold gold xnew gnew : List α) (hN : 1 ≤ st.N) (hM : 1 ≤ st.M) (hmax : 0 ≤ st.maxstep) :
    update_memory_checked st xold gold xnew gnew
      = some (update_memory st xold gold xnew gnew) ∧
    compute_lbfgs_step_checked sqrt st = some (compute_lbfgs_step sqrt st) ∧
    backtracking_linesearch_checked sqrt pot st
      = some (backtracking_linesearch sqrt pot st) ∧
    st.k % st.M < st.M ∧
    (∀ i, i ∈ slots_read st.k st.M → i < st.M) := by
  refine ⟨update_memory_checked_eq st xold gold xnew gnew hM,
    compute_lbfgs_step_checked_eq sqrt st hM,
    backtracking_linesearch_checked_eq sqrt hs1 pot st hN hmax,
    Nat.mod_lt _ (by omega), ?_⟩
  intro i hi
  unfold slots_read at hi
  rw [forward_visits_nil, List.map_nil, List.append_nil, List.mem_map] at hi
  obtain ⟨j, _, rfl⟩ := hi
  exact Nat.mod_lt _ (by omega)

/-- Instance of `no_zero_divisor_no_index_out_of_range` over the reals: the state
`st_long_step` (`N = 1`, `M = 1`, `maxstep = 1/5`). -/
theorem no_zero_divisor_no_index_out_of_range_witness :
    (1 ≤ (st_long_step : LBFGS ℝ).N ∧ 1 ≤ (st_long_step : LBFGS ℝ).M ∧
      0 ≤ (st_long_step : LBFGS ℝ).maxstep) ∧
    update_memory_checked (st_long_step : LBFGS ℝ) [0] [0] [1] [2]
      = some (update_memory st_long_step [0] [0] [1] [2]) ∧
    compute_lbfgs_step_checked Real.sqrt (st_long_step : LBFGS ℝ)
      = some (compute_lbfgs_step Real.sqrt st_long_step) ∧
    backtracking_linesearch_checked Real.sqrt pot_id (st_long_step : LBFGS ℝ)
      = some (backtracking_linesearch Real.sqrt pot_id st_long_step) :=
  ⟨⟨le_refl 1, le_refl 1, by norm_num [st_long_step]⟩,
    (no_zero_divisor_no_index_out_of_range Real.sqrt (fun _ ha => Real.mul_self_sqrt ha)
      pot_id st_long_step [0] [0] [1] [2] (le_refl 1) (le_refl 1)
      (by norm_num [st_long_step])).1,
    (no_zero_divisor_no_index_out_of_range Real.sqrt (fun _ ha => Real.mul_self_sqrt ha)
      pot_id st_long_step [0] [0] [1] [2] (le_refl 1) (le_refl 1)
      (by norm_num [st_long_step])).2.1,
    (no_zero_divisor_no_index_out_of_range Real.sqrt (fun _ ha => Real.mul_self_sqrt ha)
      pot_id st_long_step [0] [0] [1] [2] (le_refl 1) (le_refl 1)
      (by norm_num [st_long_step])).2.2.1⟩

/-! ### The backward pass against the recursion of the claims -/

/-- One pass of the loop "backwards through the memory" in a state whose `step_`
has `N` entries and `alpha_` has `M ≥ 1` entries: with `i = j % M_`, it stores
`a = rho_[i] * (s_[i] . step_)` in `alpha_[i]` and subtracts `a * y_[i]` from
`step_`. -/
theorem backward_body_step (j : Nat) (t : LBFGS α) (hlen : t.step.length = t.N)
    (ha : t.alpha.length = t.M) (hM : 1 ≤ t.M) :
    backward_body j t =
      { t with
        alpha := t.alpha.set (j % t.M)
          (vget t.rho (j % t.M) * vecdot (mrow t.s (j % t.M)) t.step t.N),
        step := vaxpy t.step
          (- (vget t.rho (j % t.M) * vecdot (mrow t.s (j % t.M)) t.step t.N))
          (mrow t.y (j % t.M)) t.N } := by
  have hi : j % t.M < t.alpha.length := by
    rw [ha]
    exact Nat.mod_lt _ (by omega)
  have hA : vget (t.alpha.set (j % t.M)
      (vget t.rho (j % t.M) * vecdot (mrow t.s (j % t.M)) t.step t.N)) (j % t.M)
      = vget t.rho (j % t.M) * vecdot (mrow t.s (j % t.M)) t.step t.N := by
    rw [vget_set]
    simp [hi]
  have hS : forLoop t.N (fun j2 (v : List α) =>
        v.set j2 (vget v j2
          - vget (t.alpha.set (j % t.M)
              (vget t.rho (j % t.M) * vecdot (mrow t.s (j % t.M)) t.step t.N)) (j % t.M)
            * vget (mrow t.y (j % t.M)) j2)) t.step
      = vaxpy t.step
          (- (vget t.rho (j % t.M) * vecdot (mrow t.s (j % t.M)) t.step t.N))
          (mrow t.y (j % t.M)) t.N := by
    apply list_eq_of_vget _ _ t.N
    · rw [length_forLoop_write]; exact hlen
    · exact length_vaxpy _ _ _ _
    · intro j2 hj2
      have key := vget_forLoop_set (fun j2 (b : α) => b
          - vget (t.alpha.set (j % t.M)
              (vget t.rho (j % t.M) * vecdot (mrow t.s (j % t.M)) t.step t.N)) (j % t.M)
            * vget (mrow t.y (j % t.M)) j2) t.step t.N j2 (by omega)
      rw [if_pos hj2] at key
      rw [key, hA, vget_vaxpy _ _ _ _ _ hj2]
      ring
  rw [backward_body_eq, hS]

/-- The loop "backwards through the memory" over any list `js` of indices is the
recursion `backward_recursion` on `(alpha_, step_)`; the other members are not
changed. -/
theorem backward_fold_eq_recursion (js : List Nat) :
    ∀ t : LBFGS α, t.step.length = t.N → t.alpha.length = t.M → 1 ≤ t.M →
      js.foldl (fun (t : LBFGS α) j => backward_body j t) t =
        { t with
          alpha := (backward_recursion t js (t.alpha, t.step)).1,
          step := (backward_recursion t js (t.alpha, t.step)).2 } := by
  induction js with
  | nil => intro t _ _ _; rfl
  | cons j js ih =>
    intro t hlen ha hM
    rw [List.foldl_cons, backward_body_step j t hlen ha hM]
    refine (ih _ ?_ ?_ ?_).trans ?_
    · exact length_vaxpy _ _ _ _
    · show (t.alpha.set _ _).length = t.M
      rw [List.length_set]
      exact ha
    · exact hM
    · rfl

/-- In the branch `k_ > 0`, entry `j` of the step of `compute_lbfgs_step` is
`-(H0_ * q[j])` for the vector `q` left by the backward pass. -/
theorem compute_lbfgs_step_warm_entry (sqrt : α → α) (st : LBFGS α) (hk : st.k ≠ 0)
    (hlen : st.g.length = st.N) (j : Nat) (hj : j < st.N) :
    vget (compute_lbfgs_step sqrt st).step j = - (st.H0 * vget (backward_pass st).step j) := by
  obtain ⟨hN, _, hH, _, hl⟩ := backward_fold_frame (backward_visits st.k st.M)
    ({ st with step := st.g } : LBFGS α)
  have hN2 : (backward_pass st).N = st.N := hN
  have hH2 : (backward_pass st).H0 = st.H0 := hH
  have hl2 : (backward_pass st).step.length = st.g.length := hl
  rw [compute_lbfgs_step_warm sqrt st hk, hN2]
  rw [forLoop_step (backward_pass st) (fun j2 (u : LBFGS α) => vget u.step j2 * u.H0)
    (fun _ a => a * (backward_pass st).H0) (fun _ _ => rfl)]
  rw [forLoop_step _ (fun j2 (u : LBFGS α) => vget u.step j2 * (-1))
    (fun _ a => a * (-1)) (fun _ _ => rfl)]
  simp only []
  have k1 := vget_forLoop_set (fun (_ : Nat) (a : α) => a * (backward_pass st).H0)
    (backward_pass st).step st.N j (by omega)
  have k2 := vget_forLoop_set (fun (_ : Nat) (a : α) => a * (-1))
    (forLoop st.N (fun j (v : List α) => v.set j (vget v j * (backward_pass st).H0))
      (backward_pass st).step) st.N j
    (by rw [length_forLoop_set (fun (_ : Nat) (a : α) => a * (backward_pass st).H0)]; omega)
  rw [if_pos hj] at k1 k2
  rw [k2, k1, hH2]
  ring

/-- C8: for `M ≥ 1` and `k > M` the backward pass of `compute_lbfgs_step` visits
exactly the iteration indices `k - 1, k - 2, ..., k - M` in this order (newest
first), each once, and reads slot `j mod M` at each: in every state with these
`k` and `M` and buffers of the declared sizes, the `alpha_` and `step_` that the
pass leaves are those of the recursion `alpha[i] = rho[i] * (s[i] . q)`,
`q -= alpha[i] * y[i]` with `i = j mod M`, run from `q = g` over
`j = k - 1, ..., k - M`, and the step of `compute_lbfgs_step` is `-H0 * q`. -/
theorem backward_pass_window (sqrt : α → α) (k M : Nat) (hM : 1 ≤ M) (hk : M < k) :
    backward_visits k M = (List.range' (k - M) M).reverse ∧
    (∀ j, j ∈ backward_visits k M ↔ k - M ≤ j ∧ j < k) ∧
    (backward_visits k M).Nodup ∧
    slots_read k M = (List.range' (k - M) M).reverse.map (fun j => j % M) ∧
    (∀ st : LBFGS α, st.k = k → st.M = M → st.WellSized →
      (backward_pass st).alpha
        = (backward_recursion st (List.range' (k - M) M).reverse (st.alpha, st.g)).1 ∧
      (backward_pass st).step
        = (backward_recursion st (List.range' (k - M) M).reverse (st.alpha, st.g)).2 ∧
      ∀ j, j < st.N →
        vget (compute_lbfgs_step sqrt st).step j
          = - (st.H0 * vget
              (backward_recursion st (List.range' (k - M) M).reverse (st.alpha, st.g)).2 j)) := by
  have h1 : backward_visits k M = (List.range' (k - M) M).reverse := by
    unfold backward_visits step_jmax
    rw [step_jmin_eq, backward_js_eq]
    have h2 : max M k - (k - M) = M := by
      rw [max_eq_right (le_of_lt hk)]
      omega
    rw [h2]
  refine ⟨h1, ?_, ?_, ?_, ?_⟩
  · intro j
    rw [h1, List.mem_reverse, List.mem_range']
    constructor
    · rintro ⟨i, hi, rfl⟩
      omega
    · intro hj
      exact ⟨j - (k - M), by omega, by omega⟩
  · rw [h1, List.nodup_reverse]
    exact List.nodup_range' _ _
  · unfold slots_read forward_visits forward_js
    rw [h1]
    simp
  · intro st hsk hsM hw
    obtain ⟨_, hg, _, _, _, _, _, _, halpha⟩ := hw
    have hbp : backward_pass st =
        { ({ st with step := st.g } : LBFGS α) with
          alpha := (backward_recursion st (List.range' (k - M) M).reverse (st.alpha, st.g)).1,
          step := (backward_recursion st (List.range' (k - M) M).reverse
            (st.alpha, st.g)).2 } := by
      have hv : backward_visits st.k st.M = (List.range' (k - M) M).reverse := by
        rw [hsk, hsM]
        exact h1
      unfold backward_pass
      rw [hv]
      refine (backward_fold_eq_recursion (List.range' (k - M) M).reverse
        ({ st with step := st.g } : LBFGS α) hg halpha (by rw [hsM]; exact hM)).trans ?_
      rfl
    refine ⟨by rw [hbp], by rw [hbp], fun j hj => ?_⟩
    rw [compute_lbfgs_step_warm_entry sqrt st (by omega) hg j hj, hbp]

/-- Instance of `backward_pass_window`: with `M = 2` and `k = 5` the backward pass
visits iterations `4` and `3`, and none of `0`, `1`, `2`; in the state `st2_hist`
it reads slot `0` (`alpha[0] = 1/2`, `q = 1 - (1/2) * 3`) and then slot `1`
(`alpha[1] = -1/3`, `q = -1/2 + (1/3) * 4 = 5/6`), and the step is `-(1/10) * (5/6)`. -/
theorem backward_pass_window_witness :
    (1 ≤ 2 ∧ 2 < 5 ∧ st2_hist.k = 5 ∧ st2_hist.M = 2 ∧ st2_hist.WellSized) ∧
    backward_visits 5 2 = [4, 3] ∧ slots_read 5 2 = [0, 1] ∧
    (backward_pass st2_hist).alpha = [1/2, -1/3] ∧
    (backward_pass st2_hist).step = [5/6] ∧
    vget (compute_lbfgs_step sqrtQ st2_hist).step 0 = -1/12 :=
  ⟨by decide,
    (backward_pass_window sqrtQ 5 2 (by decide) (by decide)).1.trans (by decide),
    (backward_pass_window sqrtQ 5 2 (by decide) (by decide)).2.2.2.1.trans (by decide),
    ((backward_pass_window sqrtQ 5 2 (by decide) (by decide)).2.2.2.2 st2_hist rfl rfl
      (by decide)).1.trans (by decide!),
    ((backward_pass_window sqrtQ 5 2 (by decide) (by decide)).2.2.2.2 st2_hist rfl rfl
      (by decide)).2.1.trans (by decide!),
    (((backward_pass_window sqrtQ 5 2 (by decide) (by decide)).2.2.2.2 st2_hist rfl rfl
      (by decide)).2.2 0 (by decide)).trans (by decide!)⟩

end LBFGS_ns
